import Mathlib

/-!
Shallow embedding of the admin-client core of a Kafka-compatible cluster
administration library (admin/client.py, protocol/admin.py, protocol/group.py,
coordinator/assignors/roundrobin.py), together with theorems settling the
frozen claims about it.

Machine integers are modelled as `Int`/`Nat`; broker error codes are `Int`
values (`0` = NoError, `41` = NotControllerError, `84` = ElectionNotNeededError).
Python dicts are modelled as insertion-ordered association lists and Python
sets as deduplicated lists; raising an exception is modelled with `Except`.
-/

namespace KafkaSpec

/-- TopicPartition value type: hash/equality by both fields (structs.py). -/
structure TopicPartition where
  topic : String
  partition : Int
deriving DecidableEq

/-- Broker error code for NoError. -/
def noErrorCode : Int := 0

/-- Broker error code for NotControllerError. -/
def notControllerCode : Int := 41

/-- Broker error code for ElectionNotNeededError. -/
def electionNotNeededCode : Int := 84

/-! ## _validate_timeout (admin/client.py lines 242-251)

`return timeout_ms or self.config['request_timeout_ms']` : Python `or`
returns the right operand when the left is falsy (`None` or `0`). -/

/-- Embedding of `KafkaAdminClient._validate_timeout`: `none` models a
`timeout_ms=None` argument and a numeric argument is falsy exactly when it
is `0`. -/
def validate_timeout (timeout_ms : Option Int) (request_timeout_ms : Int) : Int :=
  match timeout_ms with
  | none => request_timeout_ms
  | some v => if v = 0 then request_timeout_ms else v

/-! ## Versioned request/response registries (protocol/admin.py, protocol/group.py)

Each request/response class carries `API_KEY`, `API_VERSION` and whether it
derives from `Response` (vs `Request`); the registries are the module-level
lists. Every class and every list below is transcribed from the source. -/

/-- The metadata of one protocol class: its `API_KEY`, its `API_VERSION`, and
whether the class derives from `Response` (`true`) or `Request` (`false`). -/
structure ProtoClass where
  apiKey : Nat
  apiVersion : Nat
  isResponse : Bool
deriving DecidableEq

def CreateTopicsResponse_v0 : ProtoClass := ⟨19, 0, true⟩
def CreateTopicsResponse_v1 : ProtoClass := ⟨19, 1, true⟩
def CreateTopicsResponse_v2 : ProtoClass := ⟨19, 2, true⟩
def CreateTopicsResponse_v3 : ProtoClass := ⟨19, 3, true⟩
def CreateTopicsRequest_v0 : ProtoClass := ⟨19, 0, false⟩
def CreateTopicsRequest_v1 : ProtoClass := ⟨19, 1, false⟩
def CreateTopicsRequest_v2 : ProtoClass := ⟨19, 2, false⟩
def CreateTopicsRequest_v3 : ProtoClass := ⟨19, 3, false⟩

def CreateTopicsRequest : List ProtoClass :=
  [CreateTopicsRequest_v0, CreateTopicsRequest_v1,
   CreateTopicsRequest_v2, CreateTopicsRequest_v3]

def CreateTopicsResponse : List ProtoClass :=
  [CreateTopicsResponse_v0, CreateTopicsResponse_v1,
   CreateTopicsResponse_v2, CreateTopicsResponse_v3]

def DeleteTopicsResponse_v0 : ProtoClass := ⟨20, 0, true⟩
def DeleteTopicsResponse_v1 : ProtoClass := ⟨20, 1, true⟩
def DeleteTopicsResponse_v2 : ProtoClass := ⟨20, 2, true⟩
def DeleteTopicsResponse_v3 : ProtoClass := ⟨20, 3, true⟩
def DeleteTopicsRequest_v0 : ProtoClass := ⟨20, 0, false⟩
def DeleteTopicsRequest_v1 : ProtoClass := ⟨20, 1, false⟩
def DeleteTopicsRequest_v2 : ProtoClass := ⟨20, 2, false⟩
def DeleteTopicsRequest_v3 : ProtoClass := ⟨20, 3, false⟩

def DeleteTopicsRequest : List ProtoClass :=
  [DeleteTopicsRequest_v0, DeleteTopicsRequest_v1,
   DeleteTopicsRequest_v2, DeleteTopicsRequest_v3]

def DeleteTopicsResponse : List ProtoClass :=
  [DeleteTopicsResponse_v0, DeleteTopicsResponse_v1,
   DeleteTopicsResponse_v2, DeleteTopicsResponse_v3]

def DeleteRecordsResponse_v0 : ProtoClass := ⟨21, 0, true⟩
def DeleteRecordsRequest_v0 : ProtoClass := ⟨21, 0, false⟩

def DeleteRecordsResponse : List ProtoClass := [DeleteRecordsResponse_v0]
def DeleteRecordsRequest : List ProtoClass := [DeleteRecordsRequest_v0]

def ListGroupsResponse_v0 : ProtoClass := ⟨16, 0, true⟩
def ListGroupsResponse_v1 : ProtoClass := ⟨16, 1, true⟩
def ListGroupsResponse_v2 : ProtoClass := ⟨16, 2, true⟩
def ListGroupsRequest_v0 : ProtoClass := ⟨16, 0, false⟩
def ListGroupsRequest_v1 : ProtoClass := ⟨16, 1, false⟩

/-- `ListGroupsRequest_v2` in the source declares `API_VERSION = 1`
(protocol/admin.py line 264), mirroring v1. -/
def ListGroupsRequest_v2 : ProtoClass := ⟨16, 1, false⟩

def ListGroupsRequest : List ProtoClass :=
  [ListGroupsRequest_v0, ListGroupsRequest_v1, ListGroupsRequest_v2]

def ListGroupsResponse : List ProtoClass :=
  [ListGroupsResponse_v0, ListGroupsResponse_v1, ListGroupsResponse_v2]

def DescribeGroupsResponse_v0 : ProtoClass := ⟨15, 0, true⟩
def DescribeGroupsResponse_v1 : ProtoClass := ⟨15, 1, true⟩
def DescribeGroupsResponse_v2 : ProtoClass := ⟨15, 2, true⟩
def DescribeGroupsResponse_v3 : ProtoClass := ⟨15, 3, true⟩
def DescribeGroupsRequest_v0 : ProtoClass := ⟨15, 0, false⟩
def DescribeGroupsRequest_v1 : ProtoClass := ⟨15, 1, false⟩
def DescribeGroupsRequest_v2 : ProtoClass := ⟨15, 2, false⟩
def DescribeGroupsRequest_v3 : ProtoClass := ⟨15, 3, false⟩

def DescribeGroupsRequest : List ProtoClass :=
  [DescribeGroupsRequest_v0, DescribeGroupsRequest_v1,
   DescribeGroupsRequest_v2, DescribeGroupsRequest_v3]

def DescribeGroupsResponse : List ProtoClass :=
  [DescribeGroupsResponse_v0, DescribeGroupsResponse_v1,
   DescribeGroupsResponse_v2, DescribeGroupsResponse_v3]

def DescribeAclsResponse_v0 : ProtoClass := ⟨29, 0, true⟩
def DescribeAclsResponse_v1 : ProtoClass := ⟨29, 1, true⟩
def DescribeAclsResponse_v2 : ProtoClass := ⟨29, 2, true⟩
def DescribeAclsRequest_v0 : ProtoClass := ⟨29, 0, false⟩
def DescribeAclsRequest_v1 : ProtoClass := ⟨29, 1, false⟩
def DescribeAclsRequest_v2 : ProtoClass := ⟨29, 2, false⟩

def DescribeAclsRequest : List ProtoClass :=
  [DescribeAclsRequest_v0, DescribeAclsRequest_v1, DescribeAclsRequest_v2]

def DescribeAclsResponse : List ProtoClass :=
  [DescribeAclsResponse_v0, DescribeAclsResponse_v1, DescribeAclsResponse_v2]

def CreateAclsResponse_v0 : ProtoClass := ⟨30, 0, true⟩
def CreateAclsResponse_v1 : ProtoClass := ⟨30, 1, true⟩
def CreateAclsRequest_v0 : ProtoClass := ⟨30, 0, false⟩
def CreateAclsRequest_v1 : ProtoClass := ⟨30, 1, false⟩

def CreateAclsRequest : List ProtoClass := [CreateAclsRequest_v0, CreateAclsRequest_v1]
def CreateAclsResponse : List ProtoClass := [CreateAclsResponse_v0, CreateAclsResponse_v1]

def DeleteAclsResponse_v0 : ProtoClass := ⟨31, 0, true⟩
def DeleteAclsResponse_v1 : ProtoClass := ⟨31, 1, true⟩
def DeleteAclsRequest_v0 : ProtoClass := ⟨31, 0, false⟩
def DeleteAclsRequest_v1 : ProtoClass := ⟨31, 1, false⟩

def DeleteAclsRequest : List ProtoClass := [DeleteAclsRequest_v0, DeleteAclsRequest_v1]
def DeleteAclsResponse : List ProtoClass := [DeleteAclsResponse_v0, DeleteAclsResponse_v1]

def AlterConfigsResponse_v0 : ProtoClass := ⟨33, 0, true⟩
def AlterConfigsResponse_v1 : ProtoClass := ⟨33, 1, true⟩
def AlterConfigsRequest_v0 : ProtoClass := ⟨33, 0, false⟩
def AlterConfigsRequest_v1 : ProtoClass := ⟨33, 1, false⟩

def AlterConfigsRequest : List ProtoClass := [AlterConfigsRequest_v0, AlterConfigsRequest_v1]

/-- The source list is `[AlterConfigsResponse_v0, AlterConfigsRequest_v1]`
(protocol/admin.py line 631): its second element is the request class. -/
def AlterConfigsResponse : List ProtoClass := [AlterConfigsResponse_v0, AlterConfigsRequest_v1]

def DescribeConfigsResponse_v0 : ProtoClass := ⟨32, 0, true⟩
def DescribeConfigsResponse_v1 : ProtoClass := ⟨32, 1, true⟩
def DescribeConfigsResponse_v2 : ProtoClass := ⟨32, 2, true⟩
def DescribeConfigsRequest_v0 : ProtoClass := ⟨32, 0, false⟩
def DescribeConfigsRequest_v1 : ProtoClass := ⟨32, 1, false⟩
def DescribeConfigsRequest_v2 : ProtoClass := ⟨32, 2, false⟩

def DescribeConfigsRequest : List ProtoClass :=
  [DescribeConfigsRequest_v0, DescribeConfigsRequest_v1, DescribeConfigsRequest_v2]

def DescribeConfigsResponse : List ProtoClass :=
  [DescribeConfigsResponse_v0, DescribeConfigsResponse_v1, DescribeConfigsResponse_v2]

def DescribeLogDirsResponse_v0 : ProtoClass := ⟨35, 0, true⟩
def DescribeLogDirsRequest_v0 : ProtoClass := ⟨35, 0, false⟩

def DescribeLogDirsResponse : List ProtoClass := [DescribeLogDirsResponse_v0]
def DescribeLogDirsRequest : List ProtoClass := [DescribeLogDirsRequest_v0]

def SaslAuthenticateResponse_v0 : ProtoClass := ⟨36, 0, true⟩
def SaslAuthenticateResponse_v1 : ProtoClass := ⟨36, 1, true⟩
def SaslAuthenticateRequest_v0 : ProtoClass := ⟨36, 0, false⟩
def SaslAuthenticateRequest_v1 : ProtoClass := ⟨36, 1, false⟩

def SaslAuthenticateRequest : List ProtoClass :=
  [SaslAuthenticateRequest_v0, SaslAuthenticateRequest_v1]

def SaslAuthenticateResponse : List ProtoClass :=
  [SaslAuthenticateResponse_v0, SaslAuthenticateResponse_v1]

def CreatePartitionsResponse_v0 : ProtoClass := ⟨37, 0, true⟩
def CreatePartitionsResponse_v1 : ProtoClass := ⟨37, 1, true⟩
def CreatePartitionsRequest_v0 : ProtoClass := ⟨37, 0, false⟩
def CreatePartitionsRequest_v1 : ProtoClass := ⟨37, 1, false⟩

def CreatePartitionsRequest : List ProtoClass :=
  [CreatePartitionsRequest_v0, CreatePartitionsRequest_v1]

def CreatePartitionsResponse : List ProtoClass :=
  [CreatePartitionsResponse_v0, CreatePartitionsResponse_v1]

def DeleteGroupsResponse_v0 : ProtoClass := ⟨42, 0, true⟩
def DeleteGroupsResponse_v1 : ProtoClass := ⟨42, 1, true⟩
def DeleteGroupsRequest_v0 : ProtoClass := ⟨42, 0, false⟩
def DeleteGroupsRequest_v1 : ProtoClass := ⟨42, 1, false⟩

def DeleteGroupsRequest : List ProtoClass := [DeleteGroupsRequest_v0, DeleteGroupsRequest_v1]
def DeleteGroupsResponse : List ProtoClass := [DeleteGroupsResponse_v0, DeleteGroupsResponse_v1]

def DescribeClientQuotasResponse_v0 : ProtoClass := ⟨48, 0, true⟩
def DescribeClientQuotasRequest_v0 : ProtoClass := ⟨48, 0, false⟩

def DescribeClientQuotasRequest : List ProtoClass := [DescribeClientQuotasRequest_v0]
def DescribeClientQuotasResponse : List ProtoClass := [DescribeClientQuotasResponse_v0]

def AlterPartitionReassignmentsResponse_v0 : ProtoClass := ⟨45, 0, true⟩
def AlterPartitionReassignmentsRequest_v0 : ProtoClass := ⟨45, 0, false⟩

def AlterPartitionReassignmentsRequest : List ProtoClass :=
  [AlterPartitionReassignmentsRequest_v0]

def AlterPartitionReassignmentsResponse : List ProtoClass :=
  [AlterPartitionReassignmentsResponse_v0]

def ListPartitionReassignmentsResponse_v0 : ProtoClass := ⟨46, 0, true⟩
def ListPartitionReassignmentsRequest_v0 : ProtoClass := ⟨46, 0, false⟩

def ListPartitionReassignmentsRequest : List ProtoClass :=
  [ListPartitionReassignmentsRequest_v0]

def ListPartitionReassignmentsResponse : List ProtoClass :=
  [ListPartitionReassignmentsResponse_v0]

/-- `ElectLeadersResponse_v0` declares `API_VERSION = 1` (protocol/admin.py
line 1046). -/
def ElectLeadersResponse_v0 : ProtoClass := ⟨43, 1, true⟩
def ElectLeadersResponse_v1 : ProtoClass := ⟨43, 1, true⟩

/-- `ElectLeadersRequest_v0` declares `API_VERSION = 1` (protocol/admin.py
line 1063). -/
def ElectLeadersRequest_v0 : ProtoClass := ⟨43, 1, false⟩
def ElectLeadersRequest_v1 : ProtoClass := ⟨43, 1, false⟩

def ElectLeadersRequest : List ProtoClass := [ElectLeadersRequest_v0, ElectLeadersRequest_v1]
def ElectLeadersResponse : List ProtoClass := [ElectLeadersResponse_v0, ElectLeadersResponse_v1]

def JoinGroupResponse_v0 : ProtoClass := ⟨11, 0, true⟩
def JoinGroupResponse_v1 : ProtoClass := ⟨11, 1, true⟩
def JoinGroupResponse_v2 : ProtoClass := ⟨11, 2, true⟩
def JoinGroupResponse_v3 : ProtoClass := ⟨11, 3, true⟩
def JoinGroupResponse_v4 : ProtoClass := ⟨11, 4, true⟩
def JoinGroupResponse_v5 : ProtoClass := ⟨11, 5, true⟩
def JoinGroupRequest_v0 : ProtoClass := ⟨11, 0, false⟩
def JoinGroupRequest_v1 : ProtoClass := ⟨11, 1, false⟩
def JoinGroupRequest_v2 : ProtoClass := ⟨11, 2, false⟩
def JoinGroupRequest_v3 : ProtoClass := ⟨11, 3, false⟩
def JoinGroupRequest_v4 : ProtoClass := ⟨11, 4, false⟩
def JoinGroupRequest_v5 : ProtoClass := ⟨11, 5, false⟩

def JoinGroupRequest : List ProtoClass :=
  [JoinGroupRequest_v0, JoinGroupRequest_v1, JoinGroupRequest_v2,
   JoinGroupRequest_v3, JoinGroupRequest_v4, JoinGroupRequest_v5]

def JoinGroupResponse : List ProtoClass :=
  [JoinGroupResponse_v0, JoinGroupResponse_v1, JoinGroupResponse_v2,
   JoinGroupResponse_v3, JoinGroupResponse_v4, JoinGroupResponse_v5]

def SyncGroupResponse_v0 : ProtoClass := ⟨14, 0, true⟩
def SyncGroupResponse_v1 : ProtoClass := ⟨14, 1, true⟩
def SyncGroupResponse_v2 : ProtoClass := ⟨14, 2, true⟩
def SyncGroupResponse_v3 : ProtoClass := ⟨14, 3, true⟩
def SyncGroupRequest_v0 : ProtoClass := ⟨14, 0, false⟩
def SyncGroupRequest_v1 : ProtoClass := ⟨14, 1, false⟩
def SyncGroupRequest_v2 : ProtoClass := ⟨14, 2, false⟩
def SyncGroupRequest_v3 : ProtoClass := ⟨14, 3, false⟩

def SyncGroupRequest : List ProtoClass :=
  [SyncGroupRequest_v0, SyncGroupRequest_v1, SyncGroupRequest_v2, SyncGroupRequest_v3]

def SyncGroupResponse : List ProtoClass :=
  [SyncGroupResponse_v0, SyncGroupResponse_v1, SyncGroupResponse_v2, SyncGroupResponse_v3]

def HeartbeatResponse_v0 : ProtoClass := ⟨12, 0, true⟩
def HeartbeatResponse_v1 : ProtoClass := ⟨12, 1, true⟩
def HeartbeatResponse_v2 : ProtoClass := ⟨12, 2, true⟩
def HeartbeatResponse_v3 : ProtoClass := ⟨12, 3, true⟩
def HeartbeatRequest_v0 : ProtoClass := ⟨12, 0, false⟩
def HeartbeatRequest_v1 : ProtoClass := ⟨12, 1, false⟩
def HeartbeatRequest_v2 : ProtoClass := ⟨12, 2, false⟩
def HeartbeatRequest_v3 : ProtoClass := ⟨12, 3, false⟩

def HeartbeatRequest : List ProtoClass :=
  [HeartbeatRequest_v0, HeartbeatRequest_v1, HeartbeatRequest_v2, HeartbeatRequest_v3]

def HeartbeatResponse : List ProtoClass :=
  [HeartbeatResponse_v0, HeartbeatResponse_v1, HeartbeatResponse_v2, HeartbeatResponse_v3]

def LeaveGroupResponse_v0 : ProtoClass := ⟨13, 0, true⟩
def LeaveGroupResponse_v1 : ProtoClass := ⟨13, 1, true⟩
def LeaveGroupResponse_v2 : ProtoClass := ⟨13, 2, true⟩
def LeaveGroupResponse_v3 : ProtoClass := ⟨13, 3, true⟩
def LeaveGroupRequest_v0 : ProtoClass := ⟨13, 0, false⟩
def LeaveGroupRequest_v1 : ProtoClass := ⟨13, 1, false⟩
def LeaveGroupRequest_v2 : ProtoClass := ⟨13, 2, false⟩
def LeaveGroupRequest_v3 : ProtoClass := ⟨13, 3, false⟩

def LeaveGroupRequest : List ProtoClass :=
  [LeaveGroupRequest_v0, LeaveGroupRequest_v1, LeaveGroupRequest_v2, LeaveGroupRequest_v3]

def LeaveGroupResponse : List ProtoClass :=
  [LeaveGroupResponse_v0, LeaveGroupResponse_v1, LeaveGroupResponse_v2, LeaveGroupResponse_v3]

/-! ## _list_consumer_group_offsets_request (admin/client.py lines 1393-1422)

The negotiated version is `min(5, broker max)`; with `partitions=None` and
`version <= 1` the code raises `ValueError` before building any request,
otherwise it groups the partitions by topic into a `defaultdict(set)` and
builds `OffsetFetchRequest[version](group_id, topics_partitions)`. -/

/-- Failure kinds raised synchronously by the façade before any send. -/
inductive AdminFailure
  | valueError
  | incompatibleBrokerVersion
deriving DecidableEq

/-- The OffsetFetch request the builder returns: group id, optional
topic-grouped partitions, and the negotiated version. -/
structure OffsetFetchRequestModel where
  group_id : String
  topics : Option (List (String × List Int))
  version : Nat
deriving DecidableEq

/-- Add one partition to the per-topic grouping; topics keep insertion order
and each topic accumulates a set of partitions (`defaultdict(set)`). -/
def addPartitionToTopic (acc : List (String × List Int)) (t : String) (p : Int) :
    List (String × List Int) :=
  match acc with
  | [] => [(t, [p])]
  | (t0, ps) :: rest =>
    if t0 = t then (t0, if p ∈ ps then ps else ps ++ [p]) :: rest
    else (t0, ps) :: addPartitionToTopic rest t p

/-- The `[TopicPartition] -> [(topic, [partition])]` transformation of
`_list_consumer_group_offsets_request`. -/
def groupPartitionsByTopic (ps : List TopicPartition) : List (String × List Int) :=
  ps.foldl (fun acc tp => addPartitionToTopic acc tp.topic tp.partition) []

/-- Embedding of `KafkaAdminClient._list_consumer_group_offsets_request` for a
negotiated OffsetFetch version `version`. -/
def list_consumer_group_offsets_request (group_id : String)
    (partitions : Option (List TopicPartition)) (version : Nat) :
    Except AdminFailure OffsetFetchRequestModel :=
  match partitions with
  | none =>
    if version ≤ 1 then .error .valueError
    else .ok ⟨group_id, none, version⟩
  | some ps => .ok ⟨group_id, some (groupPartitionsByTopic ps), version⟩

/-! ## list_consumer_groups (admin/client.py lines 1327-1391)

One `ListGroupsRequest` per queried broker; each response with a non-NoError
code raises; on success the per-broker group lists are merged with
`list(set().union(*consumer_groups))`. The Python set is materialised in an
unspecified order, so the merge is modelled as `join.dedup`, which fixes one
order while carrying exactly the set's membership and multiplicity. -/

/-- The fields of a ListGroupsResponse the client reads: the top-level error
code and the `(group, protocol_type)` tuples. -/
structure ListGroupsResponseModel where
  error_code : Int
  groups : List (String × String)

/-- Embedding of `_list_consumer_groups_process_response`: raise the typed
error for a non-NoError code, otherwise return `response.groups`. -/
def list_consumer_groups_process_response (r : ListGroupsResponseModel) :
    Except Int (List (String × String)) :=
  if r.error_code ≠ 0 then .error r.error_code else .ok r.groups

/-- The `send_requests` + `response_fn` comprehension of
`list_consumer_groups`: responses processed in input (broker) order,
first failure raised. `resp b` is the broker `b`'s ListGroupsResponse. -/
def collectGroupLists (brokers : List Int) (resp : Int → ListGroupsResponseModel) :
    Except Int (List (List (String × String))) :=
  match brokers with
  | [] => .ok []
  | b :: rest =>
    match list_consumer_groups_process_response (resp b) with
    | .error e => .error e
    | .ok gs => (collectGroupLists rest resp).map (gs :: ·)

/-- `list(set().union(*consumer_groups))`, as a deduplicated concatenation. -/
def setUnionToList (ls : List (List (String × String))) : List (String × String) :=
  ls.flatten.dedup

/-- Embedding of `KafkaAdminClient.list_consumer_groups` over an explicit
broker id list. -/
def list_consumer_groups (brokers : List Int) (resp : Int → ListGroupsResponseModel) :
    Except Int (List (String × String)) :=
  (collectGroupLists brokers resp).map setUnionToList

/-! ## _find_coordinator_ids (admin/client.py lines 282-334, 380-388)

`send_requests` submits one FindCoordinator request per group id in input
order and binds one future per request; `_wait_for_futures` polls until all
futures complete, in whatever order the broker answers; the result list is
then built from the futures in input order. The broker's behaviour is
modelled as a completion log: a list of `(group_id, response)` events in
completion order, each future taking the value logged for its own request. -/

/-- The fields of a FindCoordinatorResponse the client reads. -/
structure FindCoordinatorResponseModel where
  error_code : Int
  coordinator_id : Int
deriving DecidableEq

/-- Embedding of `_find_coordinator_id_process_response`: a non-NoError code
raises that typed error, otherwise the coordinator id is returned. -/
def find_coordinator_id_process_response (r : FindCoordinatorResponseModel) :
    Except Int Int :=
  if r.error_code ≠ 0 then .error r.error_code else .ok r.coordinator_id

/-- The value the future for group `g` resolves to: the response the broker
logged for `g`'s request (`none` models a future that never completes, in
which case `_wait_for_futures` blocks forever). -/
def futureValue (completions : List (String × FindCoordinatorResponseModel))
    (g : String) : Option FindCoordinatorResponseModel :=
  match completions with
  | [] => none
  | e :: rest => if e.1 = g then some e.2 else futureValue rest g

/-- Values of all futures in input (request) order. -/
def collectFutureValues (gids : List String)
    (completions : List (String × FindCoordinatorResponseModel)) :
    Option (List FindCoordinatorResponseModel) :=
  match gids with
  | [] => some []
  | g :: rest =>
    match futureValue completions g with
    | none => none
    | some r => (collectFutureValues rest completions).map (r :: ·)

/-- The `[response_fn(future.value) for future in futures]` comprehension of
`send_requests`, raising the first error in input order. -/
def applyCoordResponseFn : List FindCoordinatorResponseModel → Except Int (List Int)
  | [] => .ok []
  | r :: rest =>
    match find_coordinator_id_process_response r with
    | .error e => .error e
    | .ok v => (applyCoordResponseFn rest).map (v :: ·)

/-- Embedding of `send_requests` specialised to FindCoordinator. -/
def send_requests_fc (gids : List String)
    (completions : List (String × FindCoordinatorResponseModel)) :
    Option (Except Int (List Int)) :=
  (collectFutureValues gids completions).map applyCoordResponseFn

/-- Embedding of `KafkaAdminClient._find_coordinator_ids`:
`dict(zip(group_ids, coordinator_ids))` as an ordered association list. -/
def find_coordinator_ids (gids : List String)
    (completions : List (String × FindCoordinatorResponseModel)) :
    Option (Except Int (List (String × Int))) :=
  (send_requests_fc gids completions).map (fun e => e.map (fun ids => gids.zip ids))

/-! ## describe_configs (admin/client.py lines 922-1000)

Inputs are split by `resource_type == BROKER` in input order; then the
version gate for `include_synonyms` runs; then each broker resource becomes
its own request to the broker whose id is `int(resource_name)` (raising
`ValueError` when the parse fails), and all remaining resources share one
request sent to the least-loaded node (`None` destination). Python `int()`
is modelled by `pyInt`. -/

/-- The resource types the split distinguishes. -/
inductive ConfigResourceType
  | broker
  | topic
deriving DecidableEq

/-- A ConfigResource argument: type, name, optional config-key filter. -/
structure ConfigResourceModel where
  resource_type : ConfigResourceType
  name : String
  configs : Option (List (String × String))
deriving DecidableEq

/-- The wire tuple `(resource_type, resource_name, config_names)`. -/
abbrev ConvertedConfigResource := ConfigResourceType × String × Option (List String)

/-- Embedding of `_convert_describe_config_resource_request`: the key list is
sent only when `configs` is truthy (non-`None` and non-empty). -/
def convert_describe_config_resource_request (r : ConfigResourceModel) :
    ConvertedConfigResource :=
  (r.resource_type, r.name,
    match r.configs with
    | none => none
    | some [] => none
    | some cfgs => some (cfgs.map (·.1)))

/-- A built DescribeConfigs request: its resource tuples and, on v1+, the
`include_synonyms` flag (absent on v0). -/
structure DescribeConfigsRequestModel where
  resources : List ConvertedConfigResource
  include_synonyms : Option Bool
deriving DecidableEq

/-- Build one request for the given resources at the negotiated version. -/
def mkDescribeConfigsRequest (version : Nat) (include_synonyms : Bool)
    (resources : List ConvertedConfigResource) : DescribeConfigsRequestModel :=
  if version = 0 then ⟨resources, none⟩ else ⟨resources, some include_synonyms⟩

/-- Value of a decimal digit character (code points 48-57). -/
def digitValue (c : Char) : Option Nat :=
  if 48 ≤ c.toNat ∧ c.toNat ≤ 57 then some (c.toNat - 48) else none

/-- Accumulate a decimal number over a digit list; `none` on any non-digit. -/
def parseNatDigits : List Char → Nat → Option Nat
  | [], acc => some acc
  | c :: cs, acc =>
    match digitValue c with
    | none => none
    | some d => parseNatDigits cs (acc * 10 + d)

/-- Model of Python `int(str)`: an optional sign followed by at least one
decimal digit (surrounding-whitespace tolerance omitted). -/
def pyInt (s : String) : Option Int :=
  match s.data with
  | [] => none
  | '-' :: cs =>
    if cs = [] then none else (parseNatDigits cs 0).map (fun n => -(n : Int))
  | '+' :: cs =>
    if cs = [] then none else (parseNatDigits cs 0).map (fun n => (n : Int))
  | cs => (parseNatDigits cs 0).map (fun n => (n : Int))

/-- The per-broker-resource request loop: one request per broker resource,
destination `int(resource_name)`, `ValueError` on the first unparsable name. -/
def buildBrokerConfigRequests (version : Nat) (include_synonyms : Bool) :
    List ConvertedConfigResource →
      Except AdminFailure (List (DescribeConfigsRequestModel × Option Int))
  | [] => .ok []
  | r :: rest =>
    match pyInt r.2.1 with
    | none => .error .valueError
    | some broker_id =>
      (buildBrokerConfigRequests version include_synonyms rest).map
        ((mkDescribeConfigsRequest version include_synonyms [r], some broker_id) :: ·)

/-- Embedding of `KafkaAdminClient.describe_configs` up to the request list
handed to `send_requests`: each pair is `(request, destination)`, `none`
meaning the least-loaded node. -/
def describe_configs (config_resources : List ConfigResourceModel)
    (include_synonyms : Bool) (version : Nat) :
    Except AdminFailure (List (DescribeConfigsRequestModel × Option Int)) :=
  if include_synonyms = true ∧ version = 0 then
    .error .incompatibleBrokerVersion
  else
    (buildBrokerConfigRequests version include_synonyms
        ((config_resources.filter
            (fun r => r.resource_type = ConfigResourceType.broker)).map
          convert_describe_config_resource_request)).map
      (fun reqs =>
        if (config_resources.filter
            (fun r => ¬ r.resource_type = ConfigResourceType.broker)) = [] then reqs
        else reqs ++ [(mkDescribeConfigsRequest version include_synonyms
          ((config_resources.filter
              (fun r => ¬ r.resource_type = ConfigResourceType.broker)).map
            convert_describe_config_resource_request), none)])

/-! ## delete_records result aggregation (admin/client.py lines 1177-1203)

After all per-leader responses arrive, the client walks every
`(topic, partition)` of every response object, filling two Python dicts
`partition2result` and `partition2error` (insertion-ordered, later
assignments to the same key overwrite in place); then it raises the typed
error if exactly one partition failed, an aggregate `BrokerResponseError`
naming every failed pair if more than one failed, and returns
`partition2result` otherwise. -/

/-- One partition entry of a `DeleteRecordsResponse.to_object()`. -/
structure PartitionResult where
  partition_index : Int
  low_watermark : Int
  error_code : Int
deriving DecidableEq

/-- A decoded DeleteRecords response object: topics with their partitions. -/
abbrev DeleteRecordsResponseObj := List (String × List PartitionResult)

/-- Python dict assignment `m[k] = v` on an insertion-ordered association
list: overwrite in place if the key exists, else append. -/
def upsert {α β : Type} [DecidableEq α] (m : List (α × β)) (k : α) (v : β) :
    List (α × β) :=
  match m with
  | [] => [(k, v)]
  | (k0, v0) :: rest =>
    if k0 = k then (k0, v) :: rest else (k0, v0) :: upsert rest k v

/-- The `(TopicPartition, partition_result)` pairs of all responses in the
nested iteration order of `delete_records`. -/
def drEntries (responses : List DeleteRecordsResponseObj) :
    List (TopicPartition × PartitionResult) :=
  responses.flatMap (fun resp => resp.flatMap (fun t =>
    t.2.map (fun p => (⟨t.1, p.partition_index⟩, p))))

/-- One iteration of the collection loop: record the partition result and,
when its error code is non-zero, record the error. -/
def collectStep
    (acc : List (TopicPartition × PartitionResult) × List (TopicPartition × Int))
    (e : TopicPartition × PartitionResult) :
    List (TopicPartition × PartitionResult) × List (TopicPartition × Int) :=
  (upsert acc.1 e.1 e.2,
   if e.2.error_code ≠ 0 then upsert acc.2 e.1 e.2.error_code else acc.2)

/-- The `(partition2result, partition2error)` dicts of `delete_records`. -/
def collectDeleteRecords (entries : List (TopicPartition × PartitionResult)) :
    List (TopicPartition × PartitionResult) × List (TopicPartition × Int) :=
  entries.foldl collectStep ([], [])

/-- How `delete_records` ends: success with the result dict, a typed
single-partition error naming the topic and partition, or an aggregate
error naming every failed pair with its code. -/
inductive DeleteRecordsOutcome
  | success (results : List (TopicPartition × PartitionResult))
  | singleError (tp : TopicPartition) (code : Int)
  | aggregateError (failures : List (TopicPartition × Int))
deriving DecidableEq

/-- The final branch of `delete_records` on the collected error dict. -/
def deleteRecordsBranch (p2r : List (TopicPartition × PartitionResult))
    (p2e : List (TopicPartition × Int)) : DeleteRecordsOutcome :=
  match p2e with
  | [] => .success p2r
  | [(tp, c)] => .singleError tp c
  | _ => .aggregateError p2e

/-- Embedding of the result-aggregation tail of
`KafkaAdminClient.delete_records`. -/
def delete_records_outcome (responses : List DeleteRecordsResponseObj) :
    DeleteRecordsOutcome :=
  deleteRecordsBranch (collectDeleteRecords (drEntries responses)).1
    (collectDeleteRecords (drEntries responses)).2

/-! ## _get_leader_for_partitions (admin/client.py lines 1096-1130)

One Metadata query is issued for the deduplicated union of the requested
partitions' topics; the response's nested `topics -> partitions` structure
is then scanned, bucketing every requested partition under its leader and
recording it as valid; if any requested partition was not seen, the call
raises `UnknownTopicOrPartitionError` naming the missing ones. The metadata
response is modelled as `topic -> [(partition, leader)]`, and its nested
iteration as a scan over the flattened entry list. -/

/-- A Metadata response restricted to the fields the scan reads. -/
abbrev MetadataTopics := List (String × List (Int × Int))

/-- The `topics=set(tp.topic for tp in partitions)` argument of the single
Metadata query. -/
def requestedTopics (ps : List TopicPartition) : List String :=
  (ps.map (·.topic)).dedup

/-- The `(topic, partition, leader)` entries of the metadata response in
nested iteration order. -/
def mdEntries (md : MetadataTopics) : List (String × Int × Int) :=
  md.flatMap (fun t => t.2.map (fun p => (t.1, p.1, p.2)))

/-- The leader the metadata reports for a topic partition (first matching
entry). -/
def findLeader : List (String × Int × Int) → TopicPartition → Option Int
  | [], _ => none
  | e :: rest, tp =>
    if e.1 = tp.topic ∧ e.2.1 = tp.partition then some e.2.2
    else findLeader rest tp

/-- `leader2partitions[leader].append(tp)` on the insertion-ordered
defaultdict of buckets. -/
def appendBucket (m : List (Int × List TopicPartition)) (leader : Int)
    (tp : TopicPartition) : List (Int × List TopicPartition) :=
  match m with
  | [] => [(leader, [tp])]
  | (l0, tps) :: rest =>
    if l0 = leader then (l0, tps ++ [tp]) :: rest
    else (l0, tps) :: appendBucket rest leader tp

/-- The loop state: the leader buckets and the set of requested partitions
seen so far. -/
structure LeaderScan where
  buckets : List (Int × List TopicPartition)
  valid : List TopicPartition

/-- One step of the metadata scan: a requested partition is bucketed under
its leader and added to the valid set; other entries are skipped. -/
def scanStep (req : List TopicPartition) (acc : LeaderScan)
    (e : String × Int × Int) : LeaderScan :=
  let tp : TopicPartition := ⟨e.1, e.2.1⟩
  if tp ∈ req then
    ⟨appendBucket acc.buckets e.2.2 tp,
     if tp ∈ acc.valid then acc.valid else acc.valid ++ [tp]⟩
  else acc

/-- Embedding of `KafkaAdminClient._get_leader_for_partitions`: the error
value carries the unknown partitions the raised error names. -/
def get_leader_for_partitions (partitions : List TopicPartition)
    (md : MetadataTopics) :
    Except (List TopicPartition) (List (Int × List TopicPartition)) :=
  if partitions.dedup.length ≠
      ((mdEntries md).foldl (scanStep partitions.dedup) ⟨[], []⟩).valid.length then
    .error (partitions.dedup.filter (fun tp =>
      ¬ tp ∈ ((mdEntries md).foldl (scanStep partitions.dedup) ⟨[], []⟩).valid))
  else .ok ((mdEntries md).foldl (scanStep partitions.dedup) ⟨[], []⟩).buckets

/-! ## _send_request_to_controller (admin/client.py lines 390-459)

`tries` starts at 2 and is decremented before each send; the response parser
receives the decremented value. A response carrying `topic_errors` or
`topic_error_codes` is scanned as a flat `(topic, error_code)` list; the
ElectLeaders response is scanned through its two-level
`replication_election_results` structure, where `ElectionNotNeededError`
(code 84) also counts as success. On `NotControllerError` (code 41) with
tries left, the controller id is refreshed and the parse reports failure so
the loop resends; any other non-NoError code raises its typed error. -/

/-- A controller-bound response as the parser sees it: only the error codes
drive control flow. -/
inductive AdminResponse
  | topicErrors (errs : List (String × Int))
  | electionResults (results : List (String × List (Int × Int)))
deriving DecidableEq

/-- Embedding of `_parse_topic_request_response` over the
`(topic, error_code)` tuples, with `_refresh_controller_id` + `return False`
modelled as `.ok false` and a raise as `.error code`. -/
def parse_topic_request_response (tries : Nat) :
    List (String × Int) → Except Int Bool
  | [] => .ok true
  | e :: rest =>
    if tries ≠ 0 ∧ e.2 = notControllerCode then .ok false
    else if e.2 ≠ noErrorCode then .error e.2
    else parse_topic_request_response tries rest

/-- The inner partition loop of `_parse_topic_partition_request_response`:
`.ok true` means "keep scanning the remaining topics". -/
def parse_partition_results (tries : Nat) : List (Int × Int) → Except Int Bool
  | [] => .ok true
  | e :: rest =>
    if tries ≠ 0 ∧ e.2 = notControllerCode then .ok false
    else if ¬ (e.2 = noErrorCode ∨ e.2 = electionNotNeededCode) then .error e.2
    else parse_partition_results tries rest

/-- Embedding of `_parse_topic_partition_request_response` over
`replication_election_results`. -/
def parse_topic_partition_request_response (tries : Nat) :
    List (String × List (Int × Int)) → Except Int Bool
  | [] => .ok true
  | t :: rest =>
    match parse_partition_results tries t.2 with
    | .error e => .error e
    | .ok false => .ok false
    | .ok true => parse_topic_partition_request_response tries rest

/-- The `getattr(response, 'topic_errors', ...)` dispatch: flat-list
responses use the topic parser, the ElectLeaders response the two-level
parser. -/
def parseControllerResponse (tries : Nat) : AdminResponse → Except Int Bool
  | .topicErrors errs => parse_topic_request_response tries errs
  | .electionResults results => parse_topic_partition_request_response tries results

/-- How a controller-bound call ends. -/
inductive ControllerOutcome
  | success (resp : AdminResponse)
  | raised (code : Int)
  | runtimeBug
deriving DecidableEq

/-- What a controller-bound call did: how many sends, how many controller
refreshes, and the outcome. -/
structure ControllerResult where
  sends : Nat
  refreshes : Nat
  outcome : ControllerOutcome
deriving DecidableEq

/-- The `while tries` loop of `_send_request_to_controller`; `resp n` is the
broker's response to the `n`-th send, and falling out of the loop is the
`RuntimeError` line. -/
def controllerLoop (resp : Nat → AdminResponse) :
    Nat → Nat → Nat → ControllerResult
  | 0, attempt, refreshes => ⟨attempt, refreshes, .runtimeBug⟩
  | tries + 1, attempt, refreshes =>
    match parseControllerResponse tries (resp attempt) with
    | .error e => ⟨attempt + 1, refreshes, .raised e⟩
    | .ok true => ⟨attempt + 1, refreshes, .success (resp attempt)⟩
    | .ok false => controllerLoop resp tries (attempt + 1) (refreshes + 1)

/-- Embedding of `KafkaAdminClient._send_request_to_controller`. -/
def send_request_to_controller (resp : Nat → AdminResponse) : ControllerResult :=
  controllerLoop resp 2 0 0

/-- The error codes of a response in scan order. -/
def respCodes : AdminResponse → List Int
  | .topicErrors errs => errs.map (·.2)
  | .electionResults results => ((results.map (·.2)).flatten).map (·.2)

/-- Success codes for the ElectLeaders scan: NoError or ElectionNotNeeded. -/
def electionBenign (c : Int) : Bool :=
  decide (c = noErrorCode) || decide (c = electionNotNeededCode)

/-- Which codes count as success for a given response shape. -/
def benignCode : AdminResponse → Int → Bool
  | .topicErrors _ => fun c => decide (c = noErrorCode)
  | .electionResults _ => electionBenign

/-- A response with no error (only NoError, or also ElectionNotNeeded for
leader election). -/
def respOk (r : AdminResponse) : Prop :=
  ∀ c ∈ respCodes r, benignCode r c = true

/-- A response that contains NotControllerError, all of whose failing codes
are NotControllerError (the source's stated invariant: NotController is
thrown for all errors or none). -/
def respNotController (r : AdminResponse) : Prop :=
  notControllerCode ∈ respCodes r ∧
    ∀ c ∈ respCodes r, benignCode r c = false → c = notControllerCode

/-- The first code failing a success predicate. -/
def firstNonBenign (p : Int → Bool) : List Int → Option Int
  | [] => none
  | c :: rest => if p c then firstNonBenign p rest else some c

/-- The first failing code of a response: the code that decides the parse. -/
def firstBad (r : AdminResponse) : Option Int :=
  firstNonBenign (benignCode r) (respCodes r)

/-- What a parse returns as a function of its first failing code: no failing
code succeeds, a NotController failing code with tries left reports a
refresh-and-resend, and any other failing code raises. -/
def parseOutcome (tries : Nat) : Option Int → Except Int Bool
  | none => .ok true
  | some c =>
    if tries ≠ 0 ∧ c = notControllerCode then .ok false else .error c

/-! ## RoundRobinPartitionAssignor.assign (coordinator/assignors/roundrobin.py)

The assignor collects all subscribed topics into a set, lists every
partition of each (skipping topics without metadata), sorts the list, then
cycles through a member list built by `itertools.groupby` over
`(group_instance_id, member_id)` pairs keyed on `is-static`, collected into
a dict comprehension and concatenated as sorted static members then sorted
dynamic members. Python's stable `sorted()` is modelled by a stable
insertion sort; the set-driven topic order is immaterial because the
partition list is sorted afterwards. The skip branch of the assignment loop
rebinds `member_id` to a whole `(group_instance_id, member_id)` tuple and
then crashes on the `group_subscriptions[member_id]` lookup, modelled as
`none`; it is not taken when subscriptions are identical. -/

/-- A member's subscription: its topics and optional static instance id. -/
structure Subscription where
  topics : List String
  group_instance_id : Option String
deriving DecidableEq

/-- The set of all subscribed topics. -/
def allTopics (subs : List (String × Subscription)) : List String :=
  (subs.flatMap (fun s => s.2.topics)).dedup

/-- Every partition of every subscribed topic that has metadata. -/
def allTopicPartitions (cluster : String → Option (List Int))
    (subs : List (String × Subscription)) : List TopicPartition :=
  (allTopics subs).flatMap (fun t =>
    match cluster t with
    | none => []
    | some ps => ps.map (fun p => ⟨t, p⟩))

/-- Code-point lexicographic comparison of char lists, as Python compares
strings. -/
def charListLt : List Char → List Char → Bool
  | [], [] => false
  | [], _ :: _ => true
  | _ :: _, [] => false
  | a :: as, b :: bs =>
    if a.toNat < b.toNat then true
    else if b.toNat < a.toNat then false
    else charListLt as bs

/-- Strict string comparison over the underlying characters. -/
def strLt (a b : String) : Bool := charListLt a.data b.data

/-- Non-strict string comparison. -/
def strLe (a b : String) : Bool := strLt a b || a == b

/-- Lexicographic order on `TopicPartition` tuples, as Python compares the
namedtuples. -/
def tpLe (a b : TopicPartition) : Bool :=
  strLt a.topic b.topic ||
    (decide (a.topic = b.topic) && decide (a.partition ≤ b.partition))

/-- Insert after every element that is `le`-below-or-equal, keeping the
insertion stable. -/
def insertAfterLe {α : Type} (le : α → α → Bool) (x : α) : List α → List α
  | [] => [x]
  | y :: ys => if le y x then y :: insertAfterLe le x ys else x :: y :: ys

/-- Stable sort (the result Python's stable `sorted()` produces for a total
preorder). -/
def sortByStable {α : Type} (le : α → α → Bool) (l : List α) : List α :=
  l.foldl (fun acc x => insertAfterLe le x acc) []

/-- The `(group_instance_id, member_id)` pairs in dict iteration order. -/
def ungroupedMembers (subs : List (String × Subscription)) :
    List (Option String × String) :=
  subs.map (fun s => (s.2.group_instance_id, s.1))

/-- `itertools.groupby` keyed on `group_instance_id is not None`: groups of
consecutive pairs sharing the key. -/
def groupByStatic : List (Option String × String) →
    List (Bool × List (Option String × String))
  | [] => []
  | e :: rest =>
    match groupByStatic rest with
    | [] => [(e.1.isSome, [e])]
    | (k, g) :: gs =>
      if e.1.isSome = k then (k, e :: g) :: gs
      else (e.1.isSome, [e]) :: (k, g) :: gs

/-- The `{k: list(g) for k, g in groupby(...)}` dict comprehension: a later
group with the same key overwrites an earlier one. -/
def groupedDict (gs : List (Bool × List (Option String × String))) :
    List (Bool × List (Option String × String)) :=
  gs.foldl (fun acc g => upsert acc g.1 g.2) []

/-- `grouped.get(k, [])`. -/
def dictGet (d : List (Bool × List (Option String × String))) (k : Bool) :
    List (Option String × String) :=
  match d with
  | [] => []
  | e :: rest => if e.1 = k then e.2 else dictGet rest k

/-- Python tuple comparison on `(group_instance_id, member_id)` pairs;
within one group the ids are homogeneous, so the cross-kind cases are
arbitrary. -/
def pairLe (a b : Option String × String) : Bool :=
  match a.1, b.1 with
  | none, none => strLe a.2 b.2
  | none, some _ => true
  | some _, none => false
  | some x, some y => strLt x y || (decide (x = y) && strLe a.2 b.2)

/-- `member_list`: sorted static members first, then sorted dynamic. -/
def member_list (subs : List (String × Subscription)) :
    List (Option String × String) :=
  sortByStable pairLe (dictGet (groupedDict (groupByStatic (ungroupedMembers subs))) true) ++
    sortByStable pairLe (dictGet (groupedDict (groupByStatic (ungroupedMembers subs))) false)

/-- `group_subscriptions[member_id]`. -/
def lookupSub (subs : List (String × Subscription)) (m : String) :
    Option Subscription :=
  match subs with
  | [] => none
  | e :: rest => if e.1 = m then some e.2 else lookupSub rest m

/-- The assignment loop: partition `n` goes to the cycle's next member;
`none` models the crash of the skip branch (and `next` on an empty cycle). -/
def assignLoop (subs : List (String × Subscription))
    (members : List (Option String × String)) :
    List TopicPartition → Nat → Option (List (String × TopicPartition))
  | [], _ => some []
  | p :: ps, i =>
    match members.get? (i % members.length) with
    | none => none
    | some mem =>
      match lookupSub subs mem.2 with
      | none => none
      | some sub =>
        if p.topic ∈ sub.topics then
          (assignLoop subs members ps (i + 1)).map ((mem.2, p) :: ·)
        else none

/-- Embedding of `RoundRobinPartitionAssignor.assign` up to the final
regrouping into per-member protocol structs: the `(member, partition)`
assignments in loop order. -/
def roundrobin_assign (cluster : String → Option (List Int))
    (subs : List (String × Subscription)) :
    Option (List (String × TopicPartition)) :=
  assignLoop subs (member_list subs)
    (sortByStable tpLe (allTopicPartitions cluster subs)) 0

/-- How many partitions a member received. -/
def assignedCount (pairs : List (String × TopicPartition)) (m : String) : Nat :=
  (pairs.filter (fun e => e.1 = m)).length

/-- A registry list is indexed by API version when the class stored at index
`i` has `API_VERSION = i`. -/
def registryIndexed (l : List ProtoClass) : Bool :=
  l.enum.all (fun p => p.2.apiVersion == p.1)

/-- Every element of the list derives from `Response`. -/
def registryAllResponses (l : List ProtoClass) : Bool :=
  l.all (·.isResponse)

/-! # Theorems -/

/-- C10: `_validate_timeout` returns the supplied `timeout_ms` whenever it is
truthy and the configured `request_timeout_ms` otherwise; in particular a
caller-supplied timeout of `0` is replaced by the configured default, so the
effective timeout is never `0` when `request_timeout_ms` is non-zero. -/
theorem C10_validate_timeout (t cfg : Int) (opt : Option Int) :
    (t ≠ 0 → validate_timeout (some t) cfg = t) ∧
    validate_timeout (some 0) cfg = cfg ∧
    validate_timeout none cfg = cfg ∧
    (cfg ≠ 0 → validate_timeout opt cfg ≠ 0) := by
  refine ⟨fun ht => ?_, rfl, rfl, fun hcfg => ?_⟩
  · simp [validate_timeout, ht]
  · cases opt with
    | none => simpa [validate_timeout] using hcfg
    | some v =>
      by_cases hv : v = 0 <;> simp [validate_timeout, hv, hcfg]

/-- Witness for C10 at concrete inputs. -/
theorem C10_validate_timeout_witness :
    validate_timeout (some 5) 30000 = 5 ∧ validate_timeout (some 0) 30000 ≠ 0 := by
  refine ⟨(C10_validate_timeout 5 30000 (some 0)).1 (by decide), ?_⟩
  exact (C10_validate_timeout 5 30000 (some 0)).2.2.2 (by decide)

/-- C7: the claimed registry invariant (class at index `i` has
`API_VERSION = i`, response registries hold only `Response` classes) holds for
most registries of the protocol module, but the code violates it at concrete
indices: `ListGroupsRequest[2].API_VERSION = 1` (not `2`),
`ElectLeadersRequest[0].API_VERSION = ElectLeadersResponse[0].API_VERSION = 1`
(not `0`), and `AlterConfigsResponse[1]` is the request class
`AlterConfigsRequest_v1`, not a `Response` class. -/
theorem C7_registry_defects :
    ListGroupsRequest.get? 2 = some ListGroupsRequest_v2 ∧
    ListGroupsRequest_v2.apiVersion = 1 ∧
    AlterConfigsResponse.get? 1 = some AlterConfigsRequest_v1 ∧
    AlterConfigsRequest_v1.isResponse = false ∧
    ElectLeadersRequest.get? 0 = some ElectLeadersRequest_v0 ∧
    ElectLeadersRequest_v0.apiVersion = 1 ∧
    ElectLeadersResponse.get? 0 = some ElectLeadersResponse_v0 ∧
    ElectLeadersResponse_v0.apiVersion = 1 ∧
    registryIndexed ListGroupsRequest = false ∧
    registryIndexed ElectLeadersRequest = false ∧
    registryIndexed ElectLeadersResponse = false ∧
    registryAllResponses AlterConfigsResponse = false ∧
    registryIndexed CreateTopicsRequest = true ∧
    registryIndexed CreateTopicsResponse = true ∧
    registryIndexed DeleteTopicsRequest = true ∧
    registryIndexed DeleteTopicsResponse = true ∧
    registryIndexed DeleteRecordsRequest = true ∧
    registryIndexed DeleteRecordsResponse = true ∧
    registryIndexed ListGroupsResponse = true ∧
    registryIndexed DescribeGroupsRequest = true ∧
    registryIndexed DescribeGroupsResponse = true ∧
    registryIndexed DescribeAclsRequest = true ∧
    registryIndexed DescribeAclsResponse = true ∧
    registryIndexed CreateAclsRequest = true ∧
    registryIndexed CreateAclsResponse = true ∧
    registryIndexed DeleteAclsRequest = true ∧
    registryIndexed DeleteAclsResponse = true ∧
    registryIndexed AlterConfigsRequest = true ∧
    registryIndexed AlterConfigsResponse = true ∧
    registryIndexed DescribeConfigsRequest = true ∧
    registryIndexed DescribeConfigsResponse = true ∧
    registryIndexed DescribeLogDirsRequest = true ∧
    registryIndexed DescribeLogDirsResponse = true ∧
    registryIndexed SaslAuthenticateRequest = true ∧
    registryIndexed SaslAuthenticateResponse = true ∧
    registryIndexed CreatePartitionsRequest = true ∧
    registryIndexed CreatePartitionsResponse = true ∧
    registryIndexed DeleteGroupsRequest = true ∧
    registryIndexed DeleteGroupsResponse = true ∧
    registryIndexed DescribeClientQuotasRequest = true ∧
    registryIndexed DescribeClientQuotasResponse = true ∧
    registryIndexed AlterPartitionReassignmentsRequest = true ∧
    registryIndexed AlterPartitionReassignmentsResponse = true ∧
    registryIndexed ListPartitionReassignmentsRequest = true ∧
    registryIndexed ListPartitionReassignmentsResponse = true ∧
    registryAllResponses ListGroupsResponse = true ∧
    registryAllResponses CreateTopicsResponse = true ∧
    registryIndexed JoinGroupRequest = true ∧
    registryIndexed JoinGroupResponse = true ∧
    registryIndexed SyncGroupRequest = true ∧
    registryIndexed SyncGroupResponse = true ∧
    registryIndexed HeartbeatRequest = true ∧
    registryIndexed HeartbeatResponse = true ∧
    registryIndexed LeaveGroupRequest = true ∧
    registryIndexed LeaveGroupResponse = true := by
  decide

/-- C6 counterexample: with `partitions=None` and negotiated OffsetFetch
version `1` (less than 2), `_list_consumer_group_offsets_request` raises
`ValueError`, not `IncompatibleBrokerVersion`. -/
theorem C6_counterexample :
    list_consumer_group_offsets_request "group" none 1 =
      Except.error AdminFailure.valueError ∧
    list_consumer_group_offsets_request "group" none 1 ≠
      Except.error AdminFailure.incompatibleBrokerVersion := by
  refine ⟨rfl, ?_⟩
  intro h
  simp [list_consumer_group_offsets_request] at h

/-- C6 (amended): when `list_consumer_group_offsets_request` is called with
`partitions=None` and the negotiated OffsetFetch version is less than 2, it
fails with `ValueError` before any request is built or sent; with version at
least 2 it builds the request with `topics=None`. -/
theorem C6_offset_fetch_version_gate (g : String) (v : Nat) :
    (v ≤ 1 → list_consumer_group_offsets_request g none v =
      Except.error AdminFailure.valueError) ∧
    (2 ≤ v → list_consumer_group_offsets_request g none v =
      Except.ok ⟨g, none, v⟩) := by
  constructor
  · intro h
    simp [list_consumer_group_offsets_request, h]
  · intro h
    have h1 : ¬ v ≤ 1 := by omega
    simp [list_consumer_group_offsets_request, h1]

/-- Witness for C6 at concrete versions 1 and 2. -/
theorem C6_offset_fetch_version_gate_witness :
    list_consumer_group_offsets_request "grp" none 1 =
      Except.error AdminFailure.valueError ∧
    list_consumer_group_offsets_request "grp" none 2 =
      Except.ok ⟨"grp", none, 2⟩ :=
  ⟨(C6_offset_fetch_version_gate "grp" 1).1 (by decide),
   (C6_offset_fetch_version_gate "grp" 2).2 (by decide)⟩

/-- When every queried broker reports NoError, the fan-out collects exactly
the per-broker group lists in input order. -/
theorem collectGroupLists_eq_ok (brokers : List Int)
    (resp : Int → ListGroupsResponseModel)
    (h : ∀ b ∈ brokers, (resp b).error_code = 0) :
    collectGroupLists brokers resp =
      Except.ok (brokers.map fun b => (resp b).groups) := by
  induction brokers with
  | nil => rfl
  | cons b rest ih =>
    have hb : (resp b).error_code = 0 := h b (by simp)
    have hrest : ∀ x ∈ rest, (resp x).error_code = 0 := fun x hx => h x (by simp [hx])
    simp [collectGroupLists, list_consumer_groups_process_response, hb, ih hrest,
      Except.map]

/-- C8: when every queries broker reports NoError, `list_consumer_groups`
returns the set union of the group tuples reported by all queried brokers:
each `(group, protocol_type)` tuple appears at most once, and a tuple is in
the result if and only if some queried broker reported it. -/
theorem C8_list_consumer_groups_union (brokers : List Int)
    (resp : Int → ListGroupsResponseModel)
    (h : ∀ b ∈ brokers, (resp b).error_code = 0) :
    ∃ gs, list_consumer_groups brokers resp = Except.ok gs ∧ gs.Nodup ∧
      ∀ g, g ∈ gs ↔ ∃ b ∈ brokers, g ∈ (resp b).groups := by
  refine ⟨setUnionToList (brokers.map fun b => (resp b).groups), ?_, ?_, ?_⟩
  · simp [list_consumer_groups, collectGroupLists_eq_ok brokers resp h, Except.map]
  · exact List.nodup_dedup _
  · intro g
    simp only [setUnionToList, List.mem_dedup, List.mem_flatten, List.mem_map]
    constructor
    · rintro ⟨l, ⟨b, hb, rfl⟩, hg⟩
      exact ⟨b, hb, hg⟩
    · rintro ⟨b, hb, hg⟩
      exact ⟨(resp b).groups, ⟨b, hb, rfl⟩, hg⟩

/-- Witness for C8: two brokers reporting overlapping group sets. -/
theorem C8_list_consumer_groups_union_witness :
    ∃ gs, list_consumer_groups [1, 2]
        (fun b => if b = 1 then ⟨0, [("g", "consumer")]⟩
                  else ⟨0, [("g", "consumer"), ("h", "consumer")]⟩) =
        Except.ok gs ∧ gs.Nodup ∧
      ∀ g, g ∈ gs ↔ ∃ b ∈ ([1, 2] : List Int),
        g ∈ ((fun b => if b = 1 then (⟨0, [("g", "consumer")]⟩ : ListGroupsResponseModel)
                  else ⟨0, [("g", "consumer"), ("h", "consumer")]⟩) b).groups :=
  C8_list_consumer_groups_union [1, 2]
    (fun b => if b = 1 then ⟨0, [("g", "consumer")]⟩
              else ⟨0, [("g", "consumer"), ("h", "consumer")]⟩)
    (by decide)

/-- With distinct completion keys, the future of a logged request resolves to
the logged response. -/
theorem futureValue_eq_some_of_mem
    {completions : List (String × FindCoordinatorResponseModel)}
    (hnodup : (completions.map Prod.fst).Nodup) {g : String}
    {r : FindCoordinatorResponseModel} (hmem : (g, r) ∈ completions) :
    futureValue completions g = some r := by
  induction completions with
  | nil => cases hmem
  | cons e rest ih =>
    rw [List.map_cons, List.nodup_cons] at hnodup
    rcases List.mem_cons.mp hmem with h | h
    · rw [futureValue, if_pos (by rw [← h])]
      rw [← h]
    · have hne : e.1 ≠ g := by
        intro he
        exact hnodup.1 (he ▸ List.mem_map.mpr ⟨(g, r), h, rfl⟩)
      rw [futureValue, if_neg hne]
      exact ih hnodup.2 h

/-- A resolved future's value was logged for that request. -/
theorem mem_of_futureValue_eq_some
    {completions : List (String × FindCoordinatorResponseModel)} {g : String}
    {r : FindCoordinatorResponseModel}
    (h : futureValue completions g = some r) : (g, r) ∈ completions := by
  induction completions with
  | nil => cases h
  | cons e rest ih =>
    by_cases he : e.1 = g
    · rw [futureValue, if_pos he] at h
      have hr : e.2 = r := Option.some_inj.mp h
      exact List.mem_cons.mpr (Or.inl (by rw [← he, ← hr]))
    · rw [futureValue, if_neg he] at h
      exact List.mem_cons.mpr (Or.inr (ih h))

/-- A future never resolves exactly when no event was logged for it. -/
theorem futureValue_eq_none_iff
    {completions : List (String × FindCoordinatorResponseModel)} {g : String} :
    futureValue completions g = none ↔ ∀ r, (g, r) ∉ completions := by
  induction completions with
  | nil => simp [futureValue]
  | cons e rest ih =>
    by_cases he : e.1 = g
    · rw [futureValue, if_pos he]
      constructor
      · intro h
        cases h
      · intro h
        exact absurd (List.mem_cons.mpr (Or.inl (by rw [← he]))) (h e.2)
    · rw [futureValue, if_neg he, ih]
      constructor
      · intro h r hr
        rcases List.mem_cons.mp hr with hre | hre
        · exact he (by rw [← hre])
        · exact h r hre
      · intro h r hr
        exact h r (List.mem_cons.mpr (Or.inr hr))

/-- With distinct completion keys, a future's value does not depend on the
order in which the broker completes the responses. -/
theorem futureValue_perm {c c2 : List (String × FindCoordinatorResponseModel)}
    (hperm : c.Perm c2) (hnodup : (c.map Prod.fst).Nodup) (g : String) :
    futureValue c g = futureValue c2 g := by
  cases hfv : futureValue c g with
  | none =>
    have h2 : futureValue c2 g = none := by
      rw [futureValue_eq_none_iff] at hfv ⊢
      exact fun r hr => hfv r (hperm.symm.subset hr)
    rw [h2]
  | some r =>
    have hmem : (g, r) ∈ c2 := hperm.subset (mem_of_futureValue_eq_some hfv)
    have hnodup2 : (c2.map Prod.fst).Nodup :=
      ((hperm.map Prod.fst).nodup_iff).mp hnodup
    exact (futureValue_eq_some_of_mem hnodup2 hmem).symm

/-- Collected future values only depend on each future's value. -/
theorem collectFutureValues_congr {c c2 : List (String × FindCoordinatorResponseModel)}
    (h : ∀ g, futureValue c g = futureValue c2 g) (gids : List String) :
    collectFutureValues gids c = collectFutureValues gids c2 := by
  induction gids with
  | nil => rfl
  | cons g rest ih => rw [collectFutureValues, collectFutureValues, h g, ih]

/-- When every future resolves, the collected values line up positionally
with the group ids. -/
theorem collectFutureValues_eq_some
    {c : List (String × FindCoordinatorResponseModel)} {gids : List String}
    (hcover : ∀ g ∈ gids, ∃ r, futureValue c g = some r) :
    ∃ rs, collectFutureValues gids c = some rs ∧ rs.length = gids.length ∧
      ∀ i (hi : i < gids.length) (hj : i < rs.length),
        futureValue c gids[i] = some rs[i] := by
  induction gids with
  | nil => exact ⟨[], rfl, rfl, fun i hi _ => absurd hi (by simp)⟩
  | cons g rest ih =>
    obtain ⟨r, hr⟩ := hcover g (by simp)
    obtain ⟨rs, hrs, hlen, hpos⟩ := ih (fun x hx => hcover x (by simp [hx]))
    refine ⟨r :: rs, ?_, by simp [hlen], ?_⟩
    · rw [collectFutureValues, hr, hrs]
      rfl
    · intro i hi hj
      cases i with
      | zero => simpa using hr
      | succ n => simpa using hpos n (by simpa using hi) (by simpa using hj)

/-- When every response carries NoError, the response mapping returns the
coordinator ids in order. -/
theorem applyCoordResponseFn_eq_ok {rs : List FindCoordinatorResponseModel}
    (h : ∀ r ∈ rs, r.error_code = 0) :
    applyCoordResponseFn rs = Except.ok (rs.map (·.coordinator_id)) := by
  induction rs with
  | nil => rfl
  | cons r rest ih =>
    have hr : r.error_code = 0 := h r (by simp)
    simp [applyCoordResponseFn, find_coordinator_id_process_response, hr,
      ih (fun x hx => h x (by simp [hx])), Except.map]

/-- A response with a non-NoError code makes the response mapping raise the
error code of one of the failing responses. -/
theorem applyCoordResponseFn_eq_error {rs : List FindCoordinatorResponseModel}
    (h : ∃ r ∈ rs, r.error_code ≠ 0) :
    ∃ r ∈ rs, r.error_code ≠ 0 ∧
      applyCoordResponseFn rs = Except.error r.error_code := by
  induction rs with
  | nil => simp at h
  | cons r rest ih =>
    by_cases hr : r.error_code = 0
    · have hrest : ∃ x ∈ rest, x.error_code ≠ 0 := by
        rcases h with ⟨x, hx, hxe⟩
        rcases List.mem_cons.mp hx with rfl | hx'
        · exact absurd hr hxe
        · exact ⟨x, hx', hxe⟩
      obtain ⟨x, hxmem, hxe, happ⟩ := ih hrest
      exact ⟨x, List.mem_cons.mpr (Or.inr hxmem), hxe, by
        simp [applyCoordResponseFn, find_coordinator_id_process_response, hr, happ,
          Except.map]⟩
    · exact ⟨r, List.mem_cons_self _ _, hr, by
        simp [applyCoordResponseFn, find_coordinator_id_process_response, hr]⟩

/-- C2: `_find_coordinator_ids` returns a dict mapping each input group id to
the coordinator id taken from the FindCoordinatorResponse for that same
group id, zipped back to inputs in input order, for every order in which the
broker completes the responses; any response with a non-NoError error code
raises that typed error instead of returning. -/
theorem C2_find_coordinator_ids (gids : List String)
    (c c2 : List (String × FindCoordinatorResponseModel))
    (hperm : c.Perm c2)
    (hnodup : (c.map Prod.fst).Nodup)
    (hcover : ∀ g ∈ gids, ∃ r, (g, r) ∈ c) :
    (find_coordinator_ids gids c = find_coordinator_ids gids c2) ∧
    ((∀ g r, g ∈ gids → (g, r) ∈ c → r.error_code = 0) →
      ∃ pairs, find_coordinator_ids gids c = some (Except.ok pairs) ∧
        pairs.map Prod.fst = gids ∧
        (∀ g r, g ∈ gids → (g, r) ∈ c → (g, r.coordinator_id) ∈ pairs) ∧
        (∀ p ∈ pairs, ∃ r, (p.1, r) ∈ c ∧ p.2 = r.coordinator_id)) ∧
    ((∃ g r, g ∈ gids ∧ (g, r) ∈ c ∧ r.error_code ≠ 0) →
      ∃ e, e ≠ 0 ∧ find_coordinator_ids gids c = some (Except.error e) ∧
        ∃ g r, g ∈ gids ∧ (g, r) ∈ c ∧ r.error_code = e) := by
  have hcover' : ∀ g ∈ gids, ∃ r, futureValue c g = some r := fun g hg => by
    obtain ⟨r, hr⟩ := hcover g hg
    exact ⟨r, futureValue_eq_some_of_mem hnodup hr⟩
  obtain ⟨rs, hrs, hlen, hpos⟩ := collectFutureValues_eq_some hcover'
  refine ⟨?_, ?_, ?_⟩
  · have hfv : ∀ g, futureValue c g = futureValue c2 g :=
      futureValue_perm hperm hnodup
    rw [find_coordinator_ids, find_coordinator_ids, send_requests_fc, send_requests_fc,
      collectFutureValues_congr hfv]
  · intro hok
    have hall : ∀ r ∈ rs, r.error_code = 0 := by
      intro r hr
      obtain ⟨i, hj, rfl⟩ := List.mem_iff_getElem.mp hr
      have hi : i < gids.length := by omega
      exact hok gids[i] rs[i] (List.getElem_mem hi)
        (mem_of_futureValue_eq_some (hpos i hi hj))
    refine ⟨gids.zip (rs.map (·.coordinator_id)), ?_, ?_, ?_, ?_⟩
    · rw [find_coordinator_ids, send_requests_fc, hrs]
      simp [applyCoordResponseFn_eq_ok hall, Except.map]
    · exact List.map_fst_zip _ _ (by simp [hlen])
    · intro g r hg hgr
      obtain ⟨i, hi, rfl⟩ := List.mem_iff_getElem.mp hg
      have hj : i < rs.length := by omega
      have hr : rs[i] = r := by
        have := hpos i hi hj
        rw [futureValue_eq_some_of_mem hnodup hgr] at this
        exact (Option.some_inj.mp this).symm
      have hk : i < (gids.zip (rs.map (·.coordinator_id))).length := by
        simp [hlen]
        omega
      have : (gids.zip (rs.map (·.coordinator_id)))[i] =
          (gids[i], r.coordinator_id) := by
        rw [List.getElem_zip, List.getElem_map, hr]
      exact this ▸ List.getElem_mem hk
    · intro p hp
      obtain ⟨i, hk, hpe⟩ := List.mem_iff_getElem.mp hp
      have hi : i < gids.length := by
        simp [hlen] at hk
        omega
      have hj : i < rs.length := by omega
      have hzip : (gids.zip (rs.map (·.coordinator_id)))[i] =
          (gids[i], rs[i].coordinator_id) := by
        rw [List.getElem_zip, List.getElem_map]
      rw [← hpe, hzip]
      exact ⟨rs[i], mem_of_futureValue_eq_some (hpos i hi hj), rfl⟩
  · rintro ⟨g, r, hg, hgr, hre⟩
    have hbad : ∃ x ∈ rs, x.error_code ≠ 0 := by
      obtain ⟨i, hi, rfl⟩ := List.mem_iff_getElem.mp hg
      have hj : i < rs.length := by omega
      have hr : rs[i] = r := by
        have := hpos i hi hj
        rw [futureValue_eq_some_of_mem hnodup hgr] at this
        exact (Option.some_inj.mp this).symm
      exact ⟨rs[i], List.getElem_mem hj, hr ▸ hre⟩
    obtain ⟨x, hxmem, hxe, happ⟩ := applyCoordResponseFn_eq_error hbad
    refine ⟨x.error_code, hxe, ?_, ?_⟩
    · rw [find_coordinator_ids, send_requests_fc, hrs, Option.map_map]
      simp [happ, Except.map]
    · obtain ⟨i, hj, rfl⟩ := List.mem_iff_getElem.mp hxmem
      have hi : i < gids.length := by omega
      exact ⟨gids[i], rs[i], List.getElem_mem hi,
        mem_of_futureValue_eq_some (hpos i hi hj), rfl⟩

/-- Witness for C2: two groups whose responses complete in reverse order. -/
theorem C2_find_coordinator_ids_witness :
    ∃ pairs, find_coordinator_ids ["g1", "g2"]
        [("g2", ⟨0, 5⟩), ("g1", ⟨0, 3⟩)] = some (Except.ok pairs) ∧
      pairs.map Prod.fst = ["g1", "g2"] ∧
      (∀ g r, g ∈ ["g1", "g2"] →
        (g, r) ∈ [("g2", (⟨0, 5⟩ : FindCoordinatorResponseModel)), ("g1", ⟨0, 3⟩)] →
        (g, r.coordinator_id) ∈ pairs) ∧
      (∀ p ∈ pairs, ∃ r,
        (p.1, r) ∈ [("g2", (⟨0, 5⟩ : FindCoordinatorResponseModel)), ("g1", ⟨0, 3⟩)] ∧
        p.2 = r.coordinator_id) :=
  (C2_find_coordinator_ids ["g1", "g2"] [("g2", ⟨0, 5⟩), ("g1", ⟨0, 3⟩)]
    [("g2", ⟨0, 5⟩), ("g1", ⟨0, 3⟩)] (List.Perm.refl _) (by decide)
    (by
      intro g hg
      rcases (by simpa using hg : g = "g1" ∨ g = "g2") with rfl | rfl
      · exact ⟨⟨0, 3⟩, by simp⟩
      · exact ⟨⟨0, 5⟩, by simp⟩)).2.1
    (by
      intro g r _ hgr
      rcases (by simpa using hgr :
          g = "g2" ∧ r = (⟨0, 5⟩ : FindCoordinatorResponseModel) ∨
          g = "g1" ∧ r = ⟨0, 3⟩) with ⟨rfl, rfl⟩ | ⟨rfl, rfl⟩ <;> rfl)

/-- When every broker resource name parses, the per-broker loop yields one
request per broker resource, in input order, each targeted at the parsed
broker id. -/
theorem buildBrokerConfigRequests_eq_ok (version : Nat) (include_synonyms : Bool)
    {rs : List ConvertedConfigResource}
    (h : ∀ r ∈ rs, (pyInt r.2.1).isSome) :
    buildBrokerConfigRequests version include_synonyms rs =
      Except.ok (rs.map (fun r =>
        (mkDescribeConfigsRequest version include_synonyms [r], pyInt r.2.1))) := by
  induction rs with
  | nil => rfl
  | cons r rest ih =>
    obtain ⟨k, hk⟩ := Option.isSome_iff_exists.mp (h r (by simp))
    simp only [buildBrokerConfigRequests, hk,
      ih (fun x hx => h x (by simp [hx])), Except.map, List.map_cons]

/-- An unparsable broker resource name makes the loop raise `ValueError`. -/
theorem buildBrokerConfigRequests_eq_error (version : Nat) (include_synonyms : Bool)
    {rs : List ConvertedConfigResource}
    (h : ∃ r ∈ rs, pyInt r.2.1 = none) :
    buildBrokerConfigRequests version include_synonyms rs =
      Except.error AdminFailure.valueError := by
  induction rs with
  | nil => simp at h
  | cons r rest ih =>
    cases hk : pyInt r.2.1 with
    | none => simp [buildBrokerConfigRequests, hk]
    | some k =>
      have hrest : ∃ x ∈ rest, pyInt x.2.1 = none := by
        rcases h with ⟨x, hx, hxe⟩
        rcases List.mem_cons.mp hx with rfl | hx'
        · rw [hk] at hxe
          cases hxe
        · exact ⟨x, hx', hxe⟩
      simp [buildBrokerConfigRequests, hk, ih hrest, Except.map]

/-- C5: `describe_configs` splits the inputs by `resource_type == BROKER`:
each BROKER resource yields its own request targeted at the integer parse of
its name (`ValueError` when the parse fails), all non-BROKER resources share
one request with no target node, and `include_synonyms=True` at negotiated
version 0 fails with `IncompatibleBrokerVersion` before anything is sent. -/
theorem C5_describe_configs (config_resources : List ConfigResourceModel)
    (include_synonyms : Bool) (version : Nat) :
    (include_synonyms = true ∧ version = 0 →
      describe_configs config_resources include_synonyms version =
        Except.error AdminFailure.incompatibleBrokerVersion) ∧
    (¬ (include_synonyms = true ∧ version = 0) →
      ((∀ r ∈ config_resources, r.resource_type = ConfigResourceType.broker →
          (pyInt r.name).isSome) →
        describe_configs config_resources include_synonyms version =
          Except.ok
            (((config_resources.filter
                  (fun r => r.resource_type = ConfigResourceType.broker)).map
                (fun r => (mkDescribeConfigsRequest version include_synonyms
                    [convert_describe_config_resource_request r], pyInt r.name))) ++
              (if (config_resources.filter
                    (fun r => ¬ r.resource_type = ConfigResourceType.broker)) = []
               then []
               else [(mkDescribeConfigsRequest version include_synonyms
                  ((config_resources.filter
                      (fun r => ¬ r.resource_type = ConfigResourceType.broker)).map
                    convert_describe_config_resource_request), none)]))) ∧
      ((∃ r ∈ config_resources, r.resource_type = ConfigResourceType.broker ∧
          pyInt r.name = none) →
        describe_configs config_resources include_synonyms version =
          Except.error AdminFailure.valueError)) := by
  refine ⟨fun h => by simp [describe_configs, h], fun hgate => ⟨?_, ?_⟩⟩
  · intro hparse
    have hb : ∀ x ∈ (config_resources.filter
          (fun r => r.resource_type = ConfigResourceType.broker)).map
        convert_describe_config_resource_request, (pyInt x.2.1).isSome := by
      intro x hx
      obtain ⟨r, hr, rfl⟩ := List.mem_map.mp hx
      have hf := List.mem_filter.mp hr
      exact hparse r hf.1 (by simpa using hf.2)
    rw [describe_configs, if_neg hgate,
      buildBrokerConfigRequests_eq_ok version include_synonyms hb]
    by_cases ht : (config_resources.filter
        (fun r => ¬ r.resource_type = ConfigResourceType.broker)) = []
    · simp only [Except.map, ht, List.map_map, eq_self_iff_true, if_true,
        List.append_nil]
      rfl
    · simp only [Except.map, if_neg ht, List.map_map]
      rfl
  · intro hfail
    have hb : ∃ x ∈ (config_resources.filter
          (fun r => r.resource_type = ConfigResourceType.broker)).map
        convert_describe_config_resource_request, pyInt x.2.1 = none := by
      obtain ⟨r, hr, hrt, hre⟩ := hfail
      exact ⟨convert_describe_config_resource_request r,
        List.mem_map.mpr ⟨r, List.mem_filter.mpr ⟨hr, by simpa using hrt⟩, rfl⟩, hre⟩
    rw [describe_configs, if_neg hgate,
      buildBrokerConfigRequests_eq_error version include_synonyms hb]
    rfl

/-- Witness for C5: one BROKER resource named "1" plus one TOPIC resource,
yielding two requests, the first targeted at node 1 and the second at the
least-loaded node. -/
theorem C5_describe_configs_witness :
    describe_configs
        [⟨ConfigResourceType.broker, "1", none⟩, ⟨ConfigResourceType.topic, "t", none⟩]
        false 2 =
      Except.ok
        [(⟨[(ConfigResourceType.broker, "1", none)], some false⟩, some 1),
         (⟨[(ConfigResourceType.topic, "t", none)], some false⟩, none)] := by
  have h := ((C5_describe_configs
      [⟨ConfigResourceType.broker, "1", none⟩, ⟨ConfigResourceType.topic, "t", none⟩]
      false 2).2 (by simp)).1 (by
    intro r hr hbr
    rcases (by simpa using hr :
        r = ⟨ConfigResourceType.broker, "1", none⟩ ∨
        r = ⟨ConfigResourceType.topic, "t", none⟩) with rfl | rfl
    · rfl
    · exact absurd hbr (by simp))
  rw [h]
  rfl

/-- Every pair of an updated dict comes from the dict or is the assignment. -/
theorem upsert_mem_of_mem {α β : Type} [DecidableEq α] {m : List (α × β)}
    {k : α} {v : β} {x : α × β} (h : x ∈ upsert m k v) :
    x ∈ m ∨ x = (k, v) := by
  induction m with
  | nil => simpa [upsert] using h
  | cons e rest ih =>
    by_cases hk : e.1 = k
    · rw [show upsert (e :: rest) k v = (e.1, v) :: rest by
          rw [upsert]
          simp [hk]] at h
      rcases List.mem_cons.mp h with rfl | hx
      · exact Or.inr (by rw [hk])
      · exact Or.inl (List.mem_cons.mpr (Or.inr hx))
    · rw [show upsert (e :: rest) k v = (e.1, e.2) :: upsert rest k v by
          rw [upsert]
          simp [hk]] at h
      rcases List.mem_cons.mp h with rfl | hx
      · exact Or.inl (List.mem_cons.mpr (Or.inl rfl))
      · rcases ih hx with hm | he
        · exact Or.inl (List.mem_cons.mpr (Or.inr hm))
        · exact Or.inr he

/-- Keys of an updated dict are the old keys plus the assigned key. -/
theorem mem_fst_upsert {α β : Type} [DecidableEq α] {m : List (α × β)}
    {k : α} {v : β} {a : α} :
    a ∈ (upsert m k v).map Prod.fst ↔ a ∈ m.map Prod.fst ∨ a = k := by
  induction m with
  | nil => simp [upsert]
  | cons e rest ih =>
    by_cases hk : e.1 = k
    · rw [show upsert (e :: rest) k v = (e.1, v) :: rest by
          rw [upsert]
          simp [hk]]
      simp only [List.map_cons, List.mem_cons, hk]
      tauto
    · rw [show upsert (e :: rest) k v = (e.1, e.2) :: upsert rest k v by
          rw [upsert]
          simp [hk]]
      simp only [List.map_cons, List.mem_cons, ih]
      tauto

/-- Updating a dict keeps its keys distinct. -/
theorem nodup_fst_upsert {α β : Type} [DecidableEq α] {m : List (α × β)}
    {k : α} {v : β} (h : (m.map Prod.fst).Nodup) :
    ((upsert m k v).map Prod.fst).Nodup := by
  induction m with
  | nil => simp [upsert]
  | cons e rest ih =>
    rw [List.map_cons, List.nodup_cons] at h
    by_cases hk : e.1 = k
    · rw [show upsert (e :: rest) k v = (e.1, v) :: rest by
          rw [upsert]
          simp [hk]]
      rw [List.map_cons, List.nodup_cons]
      exact h
    · rw [show upsert (e :: rest) k v = (e.1, e.2) :: upsert rest k v by
          rw [upsert]
          simp [hk]]
      rw [List.map_cons, List.nodup_cons]
      refine ⟨fun hmem => ?_, ih h.2⟩
      rcases mem_fst_upsert.mp hmem with hx | rfl
      · exact h.1 hx
      · exact hk rfl

/-- Keys of the collected error dict are exactly the partitions with a
non-zero error code among the processed entries (relative to a start dict). -/
theorem foldl_collectStep_err_keys
    (entries : List (TopicPartition × PartitionResult)) :
    ∀ acc a, a ∈ ((entries.foldl collectStep acc).2.map Prod.fst) ↔
      a ∈ acc.2.map Prod.fst ∨ ∃ p, (a, p) ∈ entries ∧ p.error_code ≠ 0 := by
  induction entries with
  | nil =>
    intro acc a
    simp
  | cons e es ih =>
    intro acc a
    rw [List.foldl_cons, ih]
    by_cases he : e.2.error_code = 0
    · rw [show (collectStep acc e).2 = acc.2 by
          rw [collectStep]
          simp [he]]
      constructor
      · rintro (h | ⟨p, hp, hpe⟩)
        · exact Or.inl h
        · exact Or.inr ⟨p, List.mem_cons.mpr (Or.inr hp), hpe⟩
      · rintro (h | ⟨p, hp, hpe⟩)
        · exact Or.inl h
        · rcases List.mem_cons.mp hp with heq | hp'
          · exfalso
            apply hpe
            have hp2 : p = e.2 := congrArg Prod.snd heq
            rw [hp2]
            exact he
          · exact Or.inr ⟨p, hp', hpe⟩
    · rw [show (collectStep acc e).2 = upsert acc.2 e.1 e.2.error_code by
          rw [collectStep]
          simp [he]]
      rw [mem_fst_upsert]
      constructor
      · rintro ((h | rfl) | ⟨p, hp, hpe⟩)
        · exact Or.inl h
        · exact Or.inr ⟨e.2, List.mem_cons.mpr (Or.inl rfl), he⟩
        · exact Or.inr ⟨p, List.mem_cons.mpr (Or.inr hp), hpe⟩
      · rintro (h | ⟨p, hp, hpe⟩)
        · exact Or.inl (Or.inl h)
        · rcases List.mem_cons.mp hp with heq | hp'
          · exact Or.inl (Or.inr (show a = e.1 from congrArg Prod.fst heq))
          · exact Or.inr ⟨p, hp', hpe⟩

/-- Every error-dict pair carries the source's own error code. -/
theorem foldl_collectStep_err_mem
    (entries : List (TopicPartition × PartitionResult)) :
    ∀ acc a c, (a, c) ∈ (entries.foldl collectStep acc).2 →
      (a, c) ∈ acc.2 ∨ ∃ p, (a, p) ∈ entries ∧ p.error_code = c ∧ c ≠ 0 := by
  induction entries with
  | nil =>
    intro acc a c h
    exact Or.inl h
  | cons e es ih =>
    intro acc a c h
    rw [List.foldl_cons] at h
    rcases ih _ a c h with hacc | ⟨p, hp, hpc, hc⟩
    · by_cases he : e.2.error_code = 0
      · rw [show (collectStep acc e).2 = acc.2 by
            rw [collectStep]
            simp [he]] at hacc
        exact Or.inl hacc
      · rw [show (collectStep acc e).2 = upsert acc.2 e.1 e.2.error_code by
            rw [collectStep]
            simp [he]] at hacc
        rcases upsert_mem_of_mem hacc with hm | heq
        · exact Or.inl hm
        · have ha : a = e.1 := congrArg Prod.fst heq
          have hc2 : c = e.2.error_code := congrArg Prod.snd heq
          refine Or.inr ⟨e.2, List.mem_cons.mpr (Or.inl ?_), hc2.symm, ?_⟩
          · rw [ha]
          · rw [hc2]
            exact he
    · exact Or.inr ⟨p, List.mem_cons.mpr (Or.inr hp), hpc, hc⟩

/-- Keys of the collected result dict are exactly the partitions appearing in
the processed entries (relative to a start dict). -/
theorem foldl_collectStep_res_keys
    (entries : List (TopicPartition × PartitionResult)) :
    ∀ acc a, a ∈ ((entries.foldl collectStep acc).1.map Prod.fst) ↔
      a ∈ acc.1.map Prod.fst ∨ ∃ p, (a, p) ∈ entries := by
  induction entries with
  | nil =>
    intro acc a
    simp
  | cons e es ih =>
    intro acc a
    rw [List.foldl_cons, ih]
    rw [show (collectStep acc e).1 = upsert acc.1 e.1 e.2 from rfl]
    rw [mem_fst_upsert]
    constructor
    · rintro ((h | rfl) | ⟨p, hp⟩)
      · exact Or.inl h
      · exact Or.inr ⟨e.2, List.mem_cons.mpr (Or.inl rfl)⟩
      · exact Or.inr ⟨p, List.mem_cons.mpr (Or.inr hp)⟩
    · rintro (h | ⟨p, hp⟩)
      · exact Or.inl (Or.inl h)
      · rcases List.mem_cons.mp hp with heq | hp'
        · exact Or.inl (Or.inr (show a = e.1 from congrArg Prod.fst heq))
        · exact Or.inr ⟨p, hp'⟩

/-- Every result-dict pair comes from the start dict or from an entry. -/
theorem foldl_collectStep_res_mem
    (entries : List (TopicPartition × PartitionResult)) :
    ∀ acc a p, (a, p) ∈ (entries.foldl collectStep acc).1 →
      (a, p) ∈ acc.1 ∨ (a, p) ∈ entries := by
  induction entries with
  | nil =>
    intro acc a p h
    exact Or.inl h
  | cons e es ih =>
    intro acc a p h
    rw [List.foldl_cons] at h
    rcases ih _ a p h with hacc | hes
    · rcases upsert_mem_of_mem hacc with hm | heq
      · exact Or.inl hm
      · refine Or.inr (List.mem_cons.mpr (Or.inl ?_))
        rw [heq]
    · exact Or.inr (List.mem_cons.mpr (Or.inr hes))

/-- The collected error dict keeps its keys distinct. -/
theorem foldl_collectStep_err_nodup
    (entries : List (TopicPartition × PartitionResult)) :
    ∀ acc, (acc.2.map Prod.fst).Nodup →
      (((entries.foldl collectStep acc).2).map Prod.fst).Nodup := by
  induction entries with
  | nil =>
    intro acc h
    exact h
  | cons e es ih =>
    intro acc h
    rw [List.foldl_cons]
    refine ih _ ?_
    by_cases he : e.2.error_code = 0
    · rw [show (collectStep acc e).2 = acc.2 by
          rw [collectStep]
          simp [he]]
      exact h
    · rw [show (collectStep acc e).2 = upsert acc.2 e.1 e.2.error_code by
          rw [collectStep]
          simp [he]]
      exact nodup_fst_upsert h

/-- C3: for the per-partition results collected by `delete_records`: with no
non-zero error code, the result dict covers every returned partition and all
its entries have error code zero; with exactly one failed partition, the
typed error for that partition's code is raised naming it; with two or more
failed partitions, an aggregate error is raised naming every failed
`(topic, partition)` pair exactly once with its code. -/
theorem C3_delete_records_errors (responses : List DeleteRecordsResponseObj) :
    ((∀ tp p, (tp, p) ∈ drEntries responses → p.error_code = 0) →
      ∃ results, delete_records_outcome responses =
          DeleteRecordsOutcome.success results ∧
        (∀ tp, (∃ p, (tp, p) ∈ drEntries responses) ↔ ∃ p, (tp, p) ∈ results) ∧
        (∀ tp p, (tp, p) ∈ results → p.error_code = 0)) ∧
    (∀ tp, ((∃ p, (tp, p) ∈ drEntries responses ∧ p.error_code ≠ 0) ∧
        (∀ tp2 p2, (tp2, p2) ∈ drEntries responses → p2.error_code ≠ 0 → tp2 = tp)) →
      ∃ c, c ≠ 0 ∧ delete_records_outcome responses =
          DeleteRecordsOutcome.singleError tp c ∧
        ∃ p, (tp, p) ∈ drEntries responses ∧ p.error_code = c) ∧
    ((∃ tp1 p1 tp2 p2, (tp1, p1) ∈ drEntries responses ∧ p1.error_code ≠ 0 ∧
        (tp2, p2) ∈ drEntries responses ∧ p2.error_code ≠ 0 ∧ tp1 ≠ tp2) →
      ∃ fs, delete_records_outcome responses =
          DeleteRecordsOutcome.aggregateError fs ∧
        (fs.map Prod.fst).Nodup ∧
        (∀ tp, tp ∈ fs.map Prod.fst ↔
          ∃ p, (tp, p) ∈ drEntries responses ∧ p.error_code ≠ 0) ∧
        (∀ tp c, (tp, c) ∈ fs → c ≠ 0 ∧
          ∃ p, (tp, p) ∈ drEntries responses ∧ p.error_code = c)) := by
  have hkeysE : ∀ a,
      a ∈ ((collectDeleteRecords (drEntries responses)).2.map Prod.fst) ↔
        ∃ p, (a, p) ∈ drEntries responses ∧ p.error_code ≠ 0 := by
    intro a
    rw [collectDeleteRecords, foldl_collectStep_err_keys (drEntries responses) ([], []) a]
    simp
  have hmemE : ∀ a c, (a, c) ∈ (collectDeleteRecords (drEntries responses)).2 →
      ∃ p, (a, p) ∈ drEntries responses ∧ p.error_code = c ∧ c ≠ 0 := by
    intro a c h
    rcases foldl_collectStep_err_mem (drEntries responses) ([], []) a c h with h0 | h1
    · simp at h0
    · exact h1
  have hnodupE :
      (((collectDeleteRecords (drEntries responses)).2).map Prod.fst).Nodup := by
    rw [collectDeleteRecords]
    exact foldl_collectStep_err_nodup (drEntries responses) ([], []) (by simp)
  have hkeysR : ∀ a,
      a ∈ ((collectDeleteRecords (drEntries responses)).1.map Prod.fst) ↔
        ∃ p, (a, p) ∈ drEntries responses := by
    intro a
    rw [collectDeleteRecords, foldl_collectStep_res_keys (drEntries responses) ([], []) a]
    simp
  have hmemR : ∀ a p, (a, p) ∈ (collectDeleteRecords (drEntries responses)).1 →
      (a, p) ∈ drEntries responses := by
    intro a p h
    rcases foldl_collectStep_res_mem (drEntries responses) ([], []) a p h with h0 | h1
    · simp at h0
    · exact h1
  refine ⟨?_, ?_, ?_⟩
  · intro hall
    have h2 : (collectDeleteRecords (drEntries responses)).2 = [] := by
      have hm : ((collectDeleteRecords (drEntries responses)).2.map Prod.fst) = [] := by
        rw [List.eq_nil_iff_forall_not_mem]
        intro a ha
        obtain ⟨p, hp, hpe⟩ := (hkeysE a).mp ha
        exact hpe (hall a p hp)
      exact List.map_eq_nil_iff.mp hm
    refine ⟨(collectDeleteRecords (drEntries responses)).1, ?_, ?_, ?_⟩
    · rw [delete_records_outcome, h2]
      rfl
    · intro tp
      constructor
      · rintro ⟨p, hp⟩
        have hmem : tp ∈ ((collectDeleteRecords (drEntries responses)).1.map Prod.fst) :=
          (hkeysR tp).mpr ⟨p, hp⟩
        obtain ⟨x, hx, hfst⟩ := List.mem_map.mp hmem
        refine ⟨x.2, ?_⟩
        rw [← hfst]
        exact hx
      · rintro ⟨p, hp⟩
        exact ⟨p, hmemR tp p hp⟩
    · intro tp p hp
      exact hall tp p (hmemR tp p hp)
  · rintro tp ⟨⟨p0, hp0, hp0e⟩, huniq⟩
    have htpmem : tp ∈ ((collectDeleteRecords (drEntries responses)).2.map Prod.fst) :=
      (hkeysE tp).mpr ⟨p0, hp0, hp0e⟩
    cases herr : (collectDeleteRecords (drEntries responses)).2 with
    | nil =>
      rw [herr] at htpmem
      simp at htpmem
    | cons x tail =>
      have hx1 : x.1 = tp := by
        have hx1mem : x.1 ∈ ((collectDeleteRecords (drEntries responses)).2.map Prod.fst) := by
          rw [herr]
          simp
        obtain ⟨p, hp, hpe⟩ := (hkeysE x.1).mp hx1mem
        exact huniq x.1 p hp hpe
      cases tail with
      | nil =>
        obtain ⟨p, hp, hpc, hc⟩ := hmemE x.1 x.2 (by
          rw [herr]
          exact List.mem_cons_self _ _)
        refine ⟨x.2, hc, ?_, p, ?_, hpc⟩
        · rw [delete_records_outcome, herr, ← hx1]
          rfl
        · rw [← hx1]
          exact hp
      | cons y tail2 =>
        exfalso
        have hy1 : y.1 = tp := by
          have hy1mem : y.1 ∈ ((collectDeleteRecords (drEntries responses)).2.map Prod.fst) := by
            rw [herr]
            simp
          obtain ⟨p, hp, hpe⟩ := (hkeysE y.1).mp hy1mem
          exact huniq y.1 p hp hpe
        rw [herr] at hnodupE
        simp only [List.map_cons, List.nodup_cons, List.mem_cons] at hnodupE
        exact hnodupE.1 (Or.inl (hx1.trans hy1.symm))
  · rintro ⟨tp1, p1, tp2, p2, h1, h1e, h2, h2e, hne⟩
    have ht1 : tp1 ∈ ((collectDeleteRecords (drEntries responses)).2.map Prod.fst) :=
      (hkeysE tp1).mpr ⟨p1, h1, h1e⟩
    have ht2 : tp2 ∈ ((collectDeleteRecords (drEntries responses)).2.map Prod.fst) :=
      (hkeysE tp2).mpr ⟨p2, h2, h2e⟩
    cases herr : (collectDeleteRecords (drEntries responses)).2 with
    | nil =>
      rw [herr] at ht1
      simp at ht1
    | cons x tail =>
      cases tail with
      | nil =>
        exfalso
        rw [herr] at ht1 ht2
        simp at ht1 ht2
        exact hne (ht1.trans ht2.symm)
      | cons y tail2 =>
        refine ⟨(collectDeleteRecords (drEntries responses)).2, ?_, hnodupE,
          fun tp => hkeysE tp, fun tp c hc => ?_⟩
        · rw [delete_records_outcome, herr]
          rfl
        · obtain ⟨p, hp, hpc, hcne⟩ := hmemE tp c hc
          exact ⟨hcne, p, hp, hpc⟩

/-- Witness for C3: one response with two failed partitions of distinct
codes, exercising the aggregate branch. -/
theorem C3_delete_records_errors_witness :
    ∃ fs, delete_records_outcome [[("t", [⟨0, 10, 3⟩, ⟨1, 20, 5⟩])]] =
        DeleteRecordsOutcome.aggregateError fs ∧
      (fs.map Prod.fst).Nodup ∧
      (∀ tp, tp ∈ fs.map Prod.fst ↔
        ∃ p, (tp, p) ∈ drEntries [[("t", [⟨0, 10, 3⟩, ⟨1, 20, 5⟩])]] ∧
          p.error_code ≠ 0) ∧
      (∀ tp c, (tp, c) ∈ fs → c ≠ 0 ∧
        ∃ p, (tp, p) ∈ drEntries [[("t", [⟨0, 10, 3⟩, ⟨1, 20, 5⟩])]] ∧
          p.error_code = c) :=
  (C3_delete_records_errors [[("t", [⟨0, 10, 3⟩, ⟨1, 20, 5⟩])]]).2.2
    ⟨⟨"t", 0⟩, ⟨0, 10, 3⟩, ⟨"t", 1⟩, ⟨1, 20, 5⟩,
      by decide, by decide, by decide, by decide, by decide⟩

/-- Building a `TopicPartition` from components equals `tp` exactly when the
components match `tp`'s fields. -/
theorem tpmk_eq_iff (a : String) (b : Int) (tp : TopicPartition) :
    (⟨a, b⟩ : TopicPartition) = tp ↔ a = tp.topic ∧ b = tp.partition := by
  cases tp
  simp

/-- No leader is found exactly when no metadata entry matches. -/
theorem findLeader_eq_none_iff (E : List (String × Int × Int)) (tp : TopicPartition) :
    findLeader E tp = none ↔ ∀ e ∈ E, (⟨e.1, e.2.1⟩ : TopicPartition) ≠ tp := by
  induction E with
  | nil => simp [findLeader]
  | cons e rest ih =>
    by_cases h : e.1 = tp.topic ∧ e.2.1 = tp.partition
    · rw [findLeader, if_pos h]
      simp only [List.mem_cons]
      constructor
      · intro hx
        cases hx
      · intro hall
        exact absurd ((tpmk_eq_iff e.1 e.2.1 tp).mpr h) (hall e (Or.inl rfl))
    · rw [findLeader, if_neg h, ih]
      constructor
      · intro hall x hx
        rcases List.mem_cons.mp hx with rfl | hm
        · intro hc
          exact h ((tpmk_eq_iff _ _ _).mp hc)
        · exact hall x hm
      · intro hall x hm
        exact hall x (List.mem_cons.mpr (Or.inr hm))

/-- With distinct `(topic, partition)` keys, the leader found for a listed
entry is that entry's leader. -/
theorem findLeader_eq_some_of_mem {E : List (String × Int × Int)}
    (hmd : (E.map (fun e => (e.1, e.2.1))).Nodup)
    {e0 : String × Int × Int} (hmem : e0 ∈ E) {tp : TopicPartition}
    (htp : (⟨e0.1, e0.2.1⟩ : TopicPartition) = tp) :
    findLeader E tp = some e0.2.2 := by
  induction E with
  | nil => cases hmem
  | cons e rest ih =>
    rw [List.map_cons, List.nodup_cons] at hmd
    rcases List.mem_cons.mp hmem with rfl | hm
    · rw [findLeader, if_pos ((tpmk_eq_iff _ _ _).mp htp)]
    · have hne : ¬(e.1 = tp.topic ∧ e.2.1 = tp.partition) := by
        intro hc
        apply hmd.1
        have h1 : (e.1, e.2.1) = (tp.topic, tp.partition) := by
          rw [hc.1, hc.2]
        have h2 : (e0.1, e0.2.1) = (tp.topic, tp.partition) := by
          rcases (tpmk_eq_iff _ _ _).mp htp with ⟨ha, hb⟩
          rw [ha, hb]
        rw [h1, ← h2]
        exact List.mem_map.mpr ⟨e0, hm, rfl⟩
      rw [findLeader, if_neg hne]
      exact ih hmd.2 hm

/-- A found leader comes from a matching metadata entry. -/
theorem findLeader_mem {E : List (String × Int × Int)} {tp : TopicPartition}
    {l : Int} (h : findLeader E tp = some l) :
    ∃ e ∈ E, (⟨e.1, e.2.1⟩ : TopicPartition) = tp ∧ e.2.2 = l := by
  induction E with
  | nil => cases h
  | cons e rest ih =>
    by_cases hc : e.1 = tp.topic ∧ e.2.1 = tp.partition
    · rw [findLeader, if_pos hc] at h
      exact ⟨e, List.mem_cons_self _ _, (tpmk_eq_iff _ _ _).mpr hc,
        Option.some_inj.mp h⟩
    · rw [findLeader, if_neg hc] at h
      obtain ⟨x, hm, ht, hl⟩ := ih h
      exact ⟨x, List.mem_cons.mpr (Or.inr hm), ht, hl⟩

/-- Where a partition sits across buckets after one append. -/
theorem mem_appendBucket {m : List (Int × List TopicPartition)} {l0 : Int}
    {tp0 : TopicPartition} {l : Int} {tp : TopicPartition} :
    (∃ tps, (l, tps) ∈ appendBucket m l0 tp0 ∧ tp ∈ tps) ↔
      (∃ tps, (l, tps) ∈ m ∧ tp ∈ tps) ∨ (l = l0 ∧ tp = tp0) := by
  induction m with
  | nil =>
    constructor
    · rintro ⟨tps, hm, htp⟩
      have heq := List.mem_singleton.mp hm
      have hl : l = l0 := congrArg Prod.fst heq
      have ht : tps = [tp0] := congrArg Prod.snd heq
      rw [ht] at htp
      exact Or.inr ⟨hl, List.mem_singleton.mp htp⟩
    · rintro (⟨tps, hm, _⟩ | ⟨hl, ht⟩)
      · cases hm
      · refine ⟨[tp0], ?_, ?_⟩
        · rw [hl]
          exact List.mem_singleton.mpr rfl
        · rw [ht]
          exact List.mem_singleton.mpr rfl
  | cons b rest ih =>
    by_cases hk : b.1 = l0
    · rw [show appendBucket (b :: rest) l0 tp0 = (b.1, b.2 ++ [tp0]) :: rest by
          rw [appendBucket]
          simp [hk]]
      constructor
      · rintro ⟨tps, hm, htp⟩
        rcases List.mem_cons.mp hm with heq | hmr
        · have hl : l = b.1 := congrArg Prod.fst heq
          have ht : tps = b.2 ++ [tp0] := congrArg Prod.snd heq
          rw [ht] at htp
          rcases List.mem_append.mp htp with h1 | h2
          · exact Or.inl ⟨b.2, List.mem_cons.mpr (Or.inl (by rw [hl])), h1⟩
          · exact Or.inr ⟨hl.trans hk, List.mem_singleton.mp h2⟩
        · exact Or.inl ⟨tps, List.mem_cons.mpr (Or.inr hmr), htp⟩
      · rintro (⟨tps, hm, htp⟩ | ⟨hl, ht⟩)
        · rcases List.mem_cons.mp hm with heq | hmr
          · have hl : l = b.1 := congrArg Prod.fst heq
            have ht : tps = b.2 := congrArg Prod.snd heq
            refine ⟨b.2 ++ [tp0], List.mem_cons.mpr (Or.inl (by rw [hl])), ?_⟩
            exact List.mem_append.mpr (Or.inl (ht ▸ htp))
          · exact ⟨tps, List.mem_cons.mpr (Or.inr hmr), htp⟩
        · refine ⟨b.2 ++ [tp0], ?_, ?_⟩
          · rw [hl, ← hk]
            exact List.mem_cons.mpr (Or.inl rfl)
          · rw [ht]
            exact List.mem_append.mpr (Or.inr (List.mem_singleton.mpr rfl))
    · rw [show appendBucket (b :: rest) l0 tp0 = (b.1, b.2) :: appendBucket rest l0 tp0 by
          rw [appendBucket]
          simp [hk]]
      constructor
      · rintro ⟨tps, hm, htp⟩
        rcases List.mem_cons.mp hm with heq | hmr
        · have hl : l = b.1 := congrArg Prod.fst heq
          have ht : tps = b.2 := congrArg Prod.snd heq
          exact Or.inl ⟨b.2, List.mem_cons.mpr (Or.inl (by rw [hl])), ht ▸ htp⟩
        · rcases ih.mp ⟨tps, hmr, htp⟩ with ⟨tps2, hm2, htp2⟩ | hnew
          · exact Or.inl ⟨tps2, List.mem_cons.mpr (Or.inr hm2), htp2⟩
          · exact Or.inr hnew
      · rintro (⟨tps, hm, htp⟩ | hnew)
        · rcases List.mem_cons.mp hm with heq | hmr
          · have hl : l = b.1 := congrArg Prod.fst heq
            have ht : tps = b.2 := congrArg Prod.snd heq
            exact ⟨b.2, List.mem_cons.mpr (Or.inl (by rw [hl])), ht ▸ htp⟩
          · obtain ⟨tps2, hm2, htp2⟩ := ih.mpr (Or.inl ⟨tps, hmr, htp⟩)
            exact ⟨tps2, List.mem_cons.mpr (Or.inr hm2), htp2⟩
        · obtain ⟨tps2, hm2, htp2⟩ := ih.mpr (Or.inr hnew)
          exact ⟨tps2, List.mem_cons.mpr (Or.inr hm2), htp2⟩

/-- Bucket keys after an append are the old keys plus the leader. -/
theorem mem_fst_appendBucket {m : List (Int × List TopicPartition)} {l0 : Int}
    {tp0 : TopicPartition} {a : Int} :
    a ∈ (appendBucket m l0 tp0).map Prod.fst ↔ a ∈ m.map Prod.fst ∨ a = l0 := by
  induction m with
  | nil => simp [appendBucket]
  | cons b rest ih =>
    by_cases hk : b.1 = l0
    · rw [show appendBucket (b :: rest) l0 tp0 = (b.1, b.2 ++ [tp0]) :: rest by
          rw [appendBucket]
          simp [hk]]
      simp only [List.map_cons, List.mem_cons, hk]
      tauto
    · rw [show appendBucket (b :: rest) l0 tp0 = (b.1, b.2) :: appendBucket rest l0 tp0 by
          rw [appendBucket]
          simp [hk]]
      simp only [List.map_cons, List.mem_cons, ih]
      tauto

/-- An append keeps the bucket keys distinct. -/
theorem nodup_fst_appendBucket {m : List (Int × List TopicPartition)} {l0 : Int}
    {tp0 : TopicPartition} (h : (m.map Prod.fst).Nodup) :
    ((appendBucket m l0 tp0).map Prod.fst).Nodup := by
  induction m with
  | nil => simp [appendBucket]
  | cons b rest ih =>
    rw [List.map_cons, List.nodup_cons] at h
    by_cases hk : b.1 = l0
    · rw [show appendBucket (b :: rest) l0 tp0 = (b.1, b.2 ++ [tp0]) :: rest by
          rw [appendBucket]
          simp [hk]]
      rw [List.map_cons, List.nodup_cons]
      exact h
    · rw [show appendBucket (b :: rest) l0 tp0 = (b.1, b.2) :: appendBucket rest l0 tp0 by
          rw [appendBucket]
          simp [hk]]
      rw [List.map_cons, List.nodup_cons]
      refine ⟨fun hmem => ?_, ih h.2⟩
      rcases mem_fst_appendBucket.mp hmem with hx | rfl
      · exact h.1 hx
      · exact hk rfl

/-- Membership in a set modelled as a deduplicating append. -/
theorem mem_setAdd {v : List TopicPartition} {tp0 tp : TopicPartition} :
    tp ∈ (if tp0 ∈ v then v else v ++ [tp0]) ↔ tp ∈ v ∨ tp = tp0 := by
  by_cases h : tp0 ∈ v
  · rw [if_pos h]
    constructor
    · exact Or.inl
    · rintro (hm | rfl)
      · exact hm
      · exact h
  · rw [if_neg h]
    simp [List.mem_append]

/-- The deduplicating append keeps the set duplicate-free. -/
theorem nodup_setAdd {v : List TopicPartition} {tp0 : TopicPartition}
    (h : v.Nodup) : (if tp0 ∈ v then v else v ++ [tp0]).Nodup := by
  by_cases hm : tp0 ∈ v
  · rw [if_pos hm]
    exact h
  · rw [if_neg hm]
    simp [List.nodup_append, h, hm]

/-- The valid set after the scan: requested partitions matched by some
processed entry. -/
theorem foldl_scanStep_valid_mem (E : List (String × Int × Int))
    (req : List TopicPartition) :
    ∀ acc tp, tp ∈ (E.foldl (scanStep req) acc).valid ↔
      tp ∈ acc.valid ∨
        (tp ∈ req ∧ ∃ e ∈ E, (⟨e.1, e.2.1⟩ : TopicPartition) = tp) := by
  induction E with
  | nil =>
    intro acc tp
    simp
  | cons e es ih =>
    intro acc tp
    rw [List.foldl_cons, ih]
    by_cases hreq : (⟨e.1, e.2.1⟩ : TopicPartition) ∈ req
    · rw [show (scanStep req acc e).valid =
          (if (⟨e.1, e.2.1⟩ : TopicPartition) ∈ acc.valid then acc.valid
           else acc.valid ++ [⟨e.1, e.2.1⟩]) by
          rw [scanStep]
          simp [hreq]]
      rw [mem_setAdd]
      constructor
      · rintro ((hv | htp) | ⟨hr, x, hx, hxe⟩)
        · exact Or.inl hv
        · refine Or.inr ⟨?_, e, List.mem_cons_self _ _, htp.symm⟩
          rw [htp]
          exact hreq
        · exact Or.inr ⟨hr, x, List.mem_cons.mpr (Or.inr hx), hxe⟩
      · rintro (hv | ⟨hr, x, hx, hxe⟩)
        · exact Or.inl (Or.inl hv)
        · rcases List.mem_cons.mp hx with rfl | hx'
          · exact Or.inl (Or.inr hxe.symm)
          · exact Or.inr ⟨hr, x, hx', hxe⟩
    · rw [show (scanStep req acc e).valid = acc.valid by
          rw [scanStep]
          simp [hreq]]
      constructor
      · rintro (hv | ⟨hr, x, hx, hxe⟩)
        · exact Or.inl hv
        · exact Or.inr ⟨hr, x, List.mem_cons.mpr (Or.inr hx), hxe⟩
      · rintro (hv | ⟨hr, x, hx, hxe⟩)
        · exact Or.inl hv
        · rcases List.mem_cons.mp hx with rfl | hx'
          · refine absurd ?_ hreq
            rw [hxe]
            exact hr
          · exact Or.inr ⟨hr, x, hx', hxe⟩

/-- The scan keeps the valid set duplicate-free. -/
theorem foldl_scanStep_valid_nodup (E : List (String × Int × Int))
    (req : List TopicPartition) :
    ∀ acc, acc.valid.Nodup → (E.foldl (scanStep req) acc).valid.Nodup := by
  induction E with
  | nil =>
    intro acc h
    exact h
  | cons e es ih =>
    intro acc h
    rw [List.foldl_cons]
    refine ih _ ?_
    by_cases hreq : (⟨e.1, e.2.1⟩ : TopicPartition) ∈ req
    · rw [show (scanStep req acc e).valid =
          (if (⟨e.1, e.2.1⟩ : TopicPartition) ∈ acc.valid then acc.valid
           else acc.valid ++ [⟨e.1, e.2.1⟩]) by
          rw [scanStep]
          simp [hreq]]
      exact nodup_setAdd h
    · rw [show (scanStep req acc e).valid = acc.valid by
          rw [scanStep]
          simp [hreq]]
      exact h

/-- Where a partition sits across buckets after the scan. -/
theorem foldl_scanStep_buckets_mem (E : List (String × Int × Int))
    (req : List TopicPartition) :
    ∀ acc l tp,
      (∃ tps, (l, tps) ∈ (E.foldl (scanStep req) acc).buckets ∧ tp ∈ tps) ↔
        (∃ tps, (l, tps) ∈ acc.buckets ∧ tp ∈ tps) ∨
          (tp ∈ req ∧ ∃ e ∈ E, (⟨e.1, e.2.1⟩ : TopicPartition) = tp ∧ e.2.2 = l) := by
  induction E with
  | nil =>
    intro acc l tp
    simp
  | cons e es ih =>
    intro acc l tp
    rw [List.foldl_cons, ih]
    by_cases hreq : (⟨e.1, e.2.1⟩ : TopicPartition) ∈ req
    · rw [show (scanStep req acc e).buckets =
          appendBucket acc.buckets e.2.2 ⟨e.1, e.2.1⟩ by
          rw [scanStep]
          simp [hreq]]
      rw [mem_appendBucket]
      constructor
      · rintro ((h | ⟨hl, htp⟩) | ⟨hr, x, hx, hxe, hxl⟩)
        · exact Or.inl h
        · refine Or.inr ⟨?_, e, List.mem_cons_self _ _, htp.symm, hl.symm⟩
          rw [htp]
          exact hreq
        · exact Or.inr ⟨hr, x, List.mem_cons.mpr (Or.inr hx), hxe, hxl⟩
      · rintro (h | ⟨hr, x, hx, hxe, hxl⟩)
        · exact Or.inl (Or.inl h)
        · rcases List.mem_cons.mp hx with rfl | hx'
          · exact Or.inl (Or.inr ⟨hxl.symm, hxe.symm⟩)
          · exact Or.inr ⟨hr, x, hx', hxe, hxl⟩
    · rw [show (scanStep req acc e).buckets = acc.buckets by
          rw [scanStep]
          simp [hreq]]
      constructor
      · rintro (h | ⟨hr, x, hx, hxe, hxl⟩)
        · exact Or.inl h
        · exact Or.inr ⟨hr, x, List.mem_cons.mpr (Or.inr hx), hxe, hxl⟩
      · rintro (h | ⟨hr, x, hx, hxe, hxl⟩)
        · exact Or.inl h
        · rcases List.mem_cons.mp hx with rfl | hx'
          · refine absurd ?_ hreq
            rw [hxe]
            exact hr
          · exact Or.inr ⟨hr, x, hx', hxe, hxl⟩

/-- The scan keeps the bucket keys distinct. -/
theorem foldl_scanStep_buckets_nodup (E : List (String × Int × Int))
    (req : List TopicPartition) :
    ∀ acc, (acc.buckets.map Prod.fst).Nodup →
      ((E.foldl (scanStep req) acc).buckets.map Prod.fst).Nodup := by
  induction E with
  | nil =>
    intro acc h
    exact h
  | cons e es ih =>
    intro acc h
    rw [List.foldl_cons]
    refine ih _ ?_
    by_cases hreq : (⟨e.1, e.2.1⟩ : TopicPartition) ∈ req
    · rw [show (scanStep req acc e).buckets =
          appendBucket acc.buckets e.2.2 ⟨e.1, e.2.1⟩ by
          rw [scanStep]
          simp [hreq]]
      exact nodup_fst_appendBucket h
    · rw [show (scanStep req acc e).buckets = acc.buckets by
          rw [scanStep]
          simp [hreq]]
      exact h

/-- C4: `_get_leader_for_partitions` queries metadata once for the union of
the requested topics, and returns leader buckets that are pairwise disjoint
and together contain exactly the requested partitions present in the
metadata; when some requested partition is absent it raises
`UnknownTopicOrPartitionError` naming all and only the missing partitions.
The metadata is assumed well-formed: distinct `(topic, partition)` entries. -/
theorem C4_get_leader_for_partitions (partitions : List TopicPartition)
    (md : MetadataTopics)
    (hmd : ((mdEntries md).map (fun e => (e.1, e.2.1))).Nodup) :
    (∀ t, t ∈ requestedTopics partitions ↔ ∃ tp ∈ partitions, tp.topic = t) ∧
    ((∀ tp ∈ partitions, (findLeader (mdEntries md) tp).isSome) →
      ∃ buckets, get_leader_for_partitions partitions md = Except.ok buckets ∧
        (buckets.map Prod.fst).Nodup ∧
        (∀ l tps tp, (l, tps) ∈ buckets → tp ∈ tps →
          tp ∈ partitions ∧ findLeader (mdEntries md) tp = some l) ∧
        (∀ tp ∈ partitions, ∃ l tps, (l, tps) ∈ buckets ∧ tp ∈ tps ∧
          findLeader (mdEntries md) tp = some l) ∧
        (∀ l1 tps1 l2 tps2, (l1, tps1) ∈ buckets → (l2, tps2) ∈ buckets →
          l1 ≠ l2 → ∀ tp, tp ∈ tps1 → tp ∉ tps2)) ∧
    ((∃ tp ∈ partitions, findLeader (mdEntries md) tp = none) →
      ∃ missing, get_leader_for_partitions partitions md = Except.error missing ∧
        missing ≠ [] ∧
        (∀ tp, tp ∈ missing ↔ tp ∈ partitions ∧
          findLeader (mdEntries md) tp = none)) := by
  have hvalid2 : ∀ tp,
      tp ∈ ((mdEntries md).foldl (scanStep partitions.dedup) ⟨[], []⟩).valid ↔
        tp ∈ partitions ∧ (findLeader (mdEntries md) tp).isSome := by
    intro tp
    rw [foldl_scanStep_valid_mem (mdEntries md) partitions.dedup ⟨[], []⟩ tp]
    constructor
    · rintro (hv | ⟨hr, e, he, hte⟩)
      · simp at hv
      · refine ⟨List.mem_dedup.mp hr, ?_⟩
        rw [findLeader_eq_some_of_mem hmd he hte]
        rfl
    · rintro ⟨hp, hsome⟩
      obtain ⟨l, hl⟩ := Option.isSome_iff_exists.mp hsome
      obtain ⟨e, he, hte, _⟩ := findLeader_mem hl
      exact Or.inr ⟨List.mem_dedup.mpr hp, e, he, hte⟩
  have hvnodup :
      ((mdEntries md).foldl (scanStep partitions.dedup) ⟨[], []⟩).valid.Nodup :=
    foldl_scanStep_valid_nodup (mdEntries md) partitions.dedup ⟨[], []⟩ (by simp)
  have hvsub :
      ((mdEntries md).foldl (scanStep partitions.dedup) ⟨[], []⟩).valid ⊆
        partitions.dedup := by
    intro tp htp
    exact List.mem_dedup.mpr ((hvalid2 tp).mp htp).1
  have hbmem : ∀ l tp,
      (∃ tps, (l, tps) ∈
          ((mdEntries md).foldl (scanStep partitions.dedup) ⟨[], []⟩).buckets ∧
        tp ∈ tps) ↔
        tp ∈ partitions ∧ findLeader (mdEntries md) tp = some l := by
    intro l tp
    rw [foldl_scanStep_buckets_mem (mdEntries md) partitions.dedup ⟨[], []⟩ l tp]
    constructor
    · rintro (hv | ⟨hr, e, he, hte, hel⟩)
      · simp at hv
      · refine ⟨List.mem_dedup.mp hr, ?_⟩
        rw [← hel]
        exact findLeader_eq_some_of_mem hmd he hte
    · rintro ⟨hp, hl⟩
      obtain ⟨e, he, hte, hel⟩ := findLeader_mem hl
      exact Or.inr ⟨List.mem_dedup.mpr hp, e, he, hte, hel⟩
  refine ⟨?_, ?_, ?_⟩
  · intro t
    simp [requestedTopics]
  · intro hall
    have hcov : ∀ tp ∈ partitions.dedup,
        tp ∈ ((mdEntries md).foldl (scanStep partitions.dedup) ⟨[], []⟩).valid := by
      intro tp htp
      exact (hvalid2 tp).mpr ⟨List.mem_dedup.mp htp, hall tp (List.mem_dedup.mp htp)⟩
    have hlen : partitions.dedup.length =
        ((mdEntries md).foldl (scanStep partitions.dedup) ⟨[], []⟩).valid.length := by
      have h1 := (List.subperm_of_subset hvnodup hvsub).length_le
      have h2 := (List.subperm_of_subset (List.nodup_dedup partitions) hcov).length_le
      omega
    rw [get_leader_for_partitions, if_neg (by omega)]
    refine ⟨_, rfl, ?_, ?_, ?_, ?_⟩
    · exact foldl_scanStep_buckets_nodup (mdEntries md) partitions.dedup ⟨[], []⟩
        (by simp)
    · intro l tps tp hmem htp
      exact (hbmem l tp).mp ⟨tps, hmem, htp⟩
    · intro tp htp
      obtain ⟨l, hl⟩ := Option.isSome_iff_exists.mp (hall tp htp)
      obtain ⟨tps, hmem, htpm⟩ := (hbmem l tp).mpr ⟨htp, hl⟩
      exact ⟨l, tps, hmem, htpm, hl⟩
    · intro l1 tps1 l2 tps2 h1 h2 hne tp htp1 htp2
      have ha := (hbmem l1 tp).mp ⟨tps1, h1, htp1⟩
      have hb := (hbmem l2 tp).mp ⟨tps2, h2, htp2⟩
      rw [ha.2] at hb
      exact hne (Option.some_inj.mp hb.2)
  · rintro ⟨tp0, htp0, hnone⟩
    have htp0v : tp0 ∉
        ((mdEntries md).foldl (scanStep partitions.dedup) ⟨[], []⟩).valid := by
      intro hv
      have hsome := ((hvalid2 tp0).mp hv).2
      rw [hnone] at hsome
      cases hsome
    have hlenne : partitions.dedup.length ≠
        ((mdEntries md).foldl (scanStep partitions.dedup) ⟨[], []⟩).valid.length := by
      intro heq
      have hperm := (List.subperm_of_subset hvnodup hvsub).perm_of_length_le (by omega)
      exact htp0v (hperm.symm.subset (List.mem_dedup.mpr htp0))
    rw [get_leader_for_partitions, if_pos hlenne]
    have hfmem : ∀ tp, tp ∈ partitions.dedup.filter (fun tp =>
          ¬ tp ∈ ((mdEntries md).foldl (scanStep partitions.dedup) ⟨[], []⟩).valid) ↔
        tp ∈ partitions ∧ findLeader (mdEntries md) tp = none := by
      intro tp
      rw [List.mem_filter]
      constructor
      · rintro ⟨hd, hnv⟩
        have hnv2 : tp ∉
            ((mdEntries md).foldl (scanStep partitions.dedup) ⟨[], []⟩).valid := by
          simpa using hnv
        refine ⟨List.mem_dedup.mp hd, ?_⟩
        rw [← Option.not_isSome_iff_eq_none]
        intro hsome
        exact hnv2 ((hvalid2 tp).mpr ⟨List.mem_dedup.mp hd, hsome⟩)
      · rintro ⟨hp, hn⟩
        refine ⟨List.mem_dedup.mpr hp, ?_⟩
        simp only [decide_eq_true_eq]
        intro hv
        have := ((hvalid2 tp).mp hv).2
        rw [hn] at this
        cases this
    refine ⟨_, rfl, ?_, hfmem⟩
    intro hnil
    have := (hfmem tp0).mpr ⟨htp0, hnone⟩
    rw [hnil] at this
    cases this

/-- Witness for C4: two partitions of one topic led by two brokers. -/
theorem C4_get_leader_for_partitions_witness :
    ∃ buckets, get_leader_for_partitions [⟨"t", 0⟩, ⟨"t", 1⟩]
        [("t", [(0, 1), (1, 2)])] = Except.ok buckets ∧
      (buckets.map Prod.fst).Nodup ∧
      (∀ l tps tp, (l, tps) ∈ buckets → tp ∈ tps →
        tp ∈ [(⟨"t", 0⟩ : TopicPartition), ⟨"t", 1⟩] ∧
        findLeader (mdEntries [("t", [(0, 1), (1, 2)])]) tp = some l) ∧
      (∀ tp ∈ [(⟨"t", 0⟩ : TopicPartition), ⟨"t", 1⟩], ∃ l tps,
        (l, tps) ∈ buckets ∧ tp ∈ tps ∧
        findLeader (mdEntries [("t", [(0, 1), (1, 2)])]) tp = some l) ∧
      (∀ l1 tps1 l2 tps2, (l1, tps1) ∈ buckets → (l2, tps2) ∈ buckets →
        l1 ≠ l2 → ∀ tp, tp ∈ tps1 → tp ∉ tps2) :=
  (C4_get_leader_for_partitions [⟨"t", 0⟩, ⟨"t", 1⟩] [("t", [(0, 1), (1, 2)])]
    (by decide)).2.1 (by decide)

/-- The topic-error parse is decided by the first non-NoError code. -/
theorem parse_topic_request_response_eq (tries : Nat) (errs : List (String × Int)) :
    parse_topic_request_response tries errs =
      parseOutcome tries
        (firstNonBenign (fun c => decide (c = noErrorCode)) (errs.map (·.2))) := by
  induction errs with
  | nil => rfl
  | cons e rest ih =>
    rw [parse_topic_request_response, List.map_cons]
    by_cases h0 : e.2 = noErrorCode
    · rw [show firstNonBenign (fun c => decide (c = noErrorCode))
          (e.2 :: rest.map (·.2)) =
          firstNonBenign (fun c => decide (c = noErrorCode)) (rest.map (·.2)) by
          rw [firstNonBenign]
          simp [h0]]
      rw [← ih]
      have h41 : ¬ (tries ≠ 0 ∧ e.2 = notControllerCode) := by
        rintro ⟨-, hc⟩
        rw [h0] at hc
        simp [noErrorCode, notControllerCode] at hc
      rw [if_neg h41, if_neg (not_not_intro h0)]
    · rw [show firstNonBenign (fun c => decide (c = noErrorCode))
          (e.2 :: rest.map (·.2)) = some e.2 by
          rw [firstNonBenign]
          simp [h0]]
      rw [parseOutcome]
      by_cases hc : tries ≠ 0 ∧ e.2 = notControllerCode
      · rw [if_pos hc, if_pos hc]
      · rw [if_neg hc, if_pos h0, if_neg hc]

/-- The partition-level election parse is decided by the first code that is
neither NoError nor ElectionNotNeeded. -/
theorem parse_partition_results_eq (tries : Nat) (prs : List (Int × Int)) :
    parse_partition_results tries prs =
      parseOutcome tries (firstNonBenign electionBenign (prs.map (·.2))) := by
  induction prs with
  | nil => rfl
  | cons e rest ih =>
    rw [parse_partition_results, List.map_cons]
    by_cases h0 : e.2 = noErrorCode ∨ e.2 = electionNotNeededCode
    · have hb : electionBenign e.2 = true := by
        rcases h0 with h | h <;> simp [electionBenign, h]
      rw [show firstNonBenign electionBenign (e.2 :: rest.map (·.2)) =
          firstNonBenign electionBenign (rest.map (·.2)) by
          rw [firstNonBenign]
          simp [hb]]
      rw [← ih]
      have h41 : ¬ (tries ≠ 0 ∧ e.2 = notControllerCode) := by
        rintro ⟨-, hc⟩
        rcases h0 with h | h <;> rw [hc] at h <;>
          simp [noErrorCode, electionNotNeededCode, notControllerCode] at h
      rw [if_neg h41, if_neg (not_not_intro h0)]
    · have hb : electionBenign e.2 = false := by
        rcases not_or.mp h0 with ⟨h1, h2⟩
        simp [electionBenign, h1, h2]
      rw [show firstNonBenign electionBenign (e.2 :: rest.map (·.2)) = some e.2 by
          rw [firstNonBenign]
          simp [hb]]
      rw [parseOutcome]
      by_cases hc : tries ≠ 0 ∧ e.2 = notControllerCode
      · rw [if_pos hc, if_pos hc]
      · rw [if_neg hc, if_pos h0, if_neg hc]

/-- Scanning a concatenation stops at the first failing code overall. -/
theorem firstNonBenign_append (p : Int → Bool) (a b : List Int) :
    firstNonBenign p (a ++ b) =
      match firstNonBenign p a with
      | some c => some c
      | none => firstNonBenign p b := by
  induction a with
  | nil => rfl
  | cons c rest ih =>
    cases h : p c with
    | true => simp [List.cons_append, firstNonBenign, h, ih]
    | false => simp [List.cons_append, firstNonBenign, h]

/-- The two-level election parse is decided by the first failing code of the
flattened scan. -/
theorem parse_topic_partition_request_response_eq (tries : Nat)
    (results : List (String × List (Int × Int))) :
    parse_topic_partition_request_response tries results =
      parseOutcome tries
        (firstNonBenign electionBenign
          (((results.map (·.2)).flatten).map (·.2))) := by
  induction results with
  | nil => rfl
  | cons t rest ih =>
    rw [parse_topic_partition_request_response, parse_partition_results_eq,
      List.map_cons, List.flatten_cons, List.map_append, firstNonBenign_append]
    cases hfst : firstNonBenign electionBenign (t.2.map (·.2)) with
    | none => exact ih
    | some c =>
      rw [parseOutcome]
      by_cases hc : tries ≠ 0 ∧ c = notControllerCode
      · rw [if_pos hc]
      · rw [if_neg hc]

/-- The parse of any controller-bound response is decided by its first
failing code. -/
theorem parseControllerResponse_eq (tries : Nat) (r : AdminResponse) :
    parseControllerResponse tries r = parseOutcome tries (firstBad r) := by
  cases r with
  | topicErrors errs => exact parse_topic_request_response_eq tries errs
  | electionResults results =>
    exact parse_topic_partition_request_response_eq tries results

/-- No failing code exactly when every code passes the predicate. -/
theorem firstNonBenign_eq_none_iff (p : Int → Bool) (l : List Int) :
    firstNonBenign p l = none ↔ ∀ c ∈ l, p c = true := by
  induction l with
  | nil => simp [firstNonBenign]
  | cons c rest ih =>
    cases h : p c with
    | true => simp [firstNonBenign, h, ih]
    | false =>
      rw [firstNonBenign, if_neg (by simp [h])]
      constructor
      · intro hx
        cases hx
      · intro hall
        rw [hall c (List.mem_cons_self _ _)] at h
        cases h

/-- When all failing codes coincide, the first failing code is that code. -/
theorem firstNonBenign_eq_some_of (p : Int → Bool) {l : List Int} {c0 : Int}
    (hmem : c0 ∈ l) (hbad : p c0 = false)
    (hall : ∀ c ∈ l, p c = false → c = c0) :
    firstNonBenign p l = some c0 := by
  induction l with
  | nil => cases hmem
  | cons c rest ih =>
    cases h : p c with
    | true =>
      rw [firstNonBenign, if_pos (by simp [h])]
      have hc0 : c0 ∈ rest := by
        rcases List.mem_cons.mp hmem with rfl | hm
        · rw [h] at hbad
          cases hbad
        · exact hm
      exact ih hc0 (fun x hx hxf => hall x (List.mem_cons.mpr (Or.inr hx)) hxf)
    | false =>
      rw [firstNonBenign, if_neg (by simp [h])]
      rw [hall c (List.mem_cons_self _ _) h]

/-- NotControllerError is never a success code. -/
theorem benign_notController (r : AdminResponse) :
    benignCode r notControllerCode = false := by
  cases r <;>
    simp [benignCode, electionBenign, notControllerCode, noErrorCode,
      electionNotNeededCode]

/-- A response is error-free exactly when it has no failing code. -/
theorem respOk_iff_firstBad_none (r : AdminResponse) :
    respOk r ↔ firstBad r = none :=
  (firstNonBenign_eq_none_iff (benignCode r) (respCodes r)).symm

/-- A NotController response's first failing code is NotController. -/
theorem respNotController_firstBad (r : AdminResponse)
    (h : respNotController r) : firstBad r = some notControllerCode :=
  firstNonBenign_eq_some_of (benignCode r) h.1 (benign_notController r) h.2

/-- C1: `_send_request_to_controller` sends at most twice and never reaches
the unreachable `RuntimeError` line; an error-free first response (NoError,
or also ElectionNotNeeded for leader election) is returned after one send; a
first response whose first failing code is any other error raises it
immediately; a NotController first response (bridged from "contains
NotController and every failing code is NotController", the source's stated
invariant) triggers exactly one refresh and one resend, after which an
error-free second response is returned and a failing second response — a
second NotController included — raises its code to the caller. -/
theorem C1_controller_retry (resp : Nat → AdminResponse) :
    ((send_request_to_controller resp).sends ≤ 2) ∧
    ((send_request_to_controller resp).outcome ≠ ControllerOutcome.runtimeBug) ∧
    (∀ n, respOk (resp n) ↔ firstBad (resp n) = none) ∧
    (∀ n, respNotController (resp n) →
      firstBad (resp n) = some notControllerCode) ∧
    (firstBad (resp 0) = none →
      send_request_to_controller resp =
        ⟨1, 0, ControllerOutcome.success (resp 0)⟩) ∧
    (∀ c, firstBad (resp 0) = some c → c ≠ notControllerCode →
      send_request_to_controller resp = ⟨1, 0, ControllerOutcome.raised c⟩) ∧
    (firstBad (resp 0) = some notControllerCode →
      (firstBad (resp 1) = none →
        send_request_to_controller resp =
          ⟨2, 1, ControllerOutcome.success (resp 1)⟩) ∧
      (∀ c, firstBad (resp 1) = some c →
        send_request_to_controller resp =
          ⟨2, 1, ControllerOutcome.raised c⟩)) := by
  have hstep1 : send_request_to_controller resp =
      match parseControllerResponse 1 (resp 0) with
      | .error e => ⟨1, 0, ControllerOutcome.raised e⟩
      | .ok true => ⟨1, 0, ControllerOutcome.success (resp 0)⟩
      | .ok false => controllerLoop resp 1 1 1 := rfl
  have hstep2 : controllerLoop resp 1 1 1 =
      match parseControllerResponse 0 (resp 1) with
      | .error e => ⟨2, 1, ControllerOutcome.raised e⟩
      | .ok true => ⟨2, 1, ControllerOutcome.success (resp 1)⟩
      | .ok false => ⟨2, 2, ControllerOutcome.runtimeBug⟩ := rfl
  have hcase1 : firstBad (resp 0) = none →
      send_request_to_controller resp =
        ⟨1, 0, ControllerOutcome.success (resp 0)⟩ := by
    intro h0
    rw [hstep1, parseControllerResponse_eq, h0, parseOutcome]
  have hcase2 : ∀ c, firstBad (resp 0) = some c → c ≠ notControllerCode →
      send_request_to_controller resp = ⟨1, 0, ControllerOutcome.raised c⟩ := by
    intro c h0 hc
    rw [hstep1, parseControllerResponse_eq, h0, parseOutcome,
      if_neg (fun hand => hc hand.2)]
  have hcase3 : firstBad (resp 0) = some notControllerCode →
      (firstBad (resp 1) = none →
        send_request_to_controller resp =
          ⟨2, 1, ControllerOutcome.success (resp 1)⟩) ∧
      (∀ c, firstBad (resp 1) = some c →
        send_request_to_controller resp =
          ⟨2, 1, ControllerOutcome.raised c⟩) := by
    intro h0
    have hloop : send_request_to_controller resp = controllerLoop resp 1 1 1 := by
      rw [hstep1, parseControllerResponse_eq, h0, parseOutcome,
        if_pos ⟨by decide, rfl⟩]
    constructor
    · intro h1
      rw [hloop, hstep2, parseControllerResponse_eq, h1, parseOutcome]
    · intro c h1
      rw [hloop, hstep2, parseControllerResponse_eq, h1, parseOutcome,
        if_neg (by simp)]
  refine ⟨?_, ?_, fun n => respOk_iff_firstBad_none (resp n),
    fun n => respNotController_firstBad (resp n), hcase1, hcase2, hcase3⟩
  · cases h0 : firstBad (resp 0) with
    | none =>
      rw [hcase1 h0]
      exact (by decide : (1 : Nat) ≤ 2)
    | some c =>
      by_cases hc : c = notControllerCode
      · subst hc
        cases h1 : firstBad (resp 1) with
        | none => rw [(hcase3 h0).1 h1]
        | some c2 => rw [(hcase3 h0).2 c2 h1]
      · rw [hcase2 c h0 hc]
        exact (by decide : (1 : Nat) ≤ 2)
  · cases h0 : firstBad (resp 0) with
    | none =>
      rw [hcase1 h0]
      exact fun h => ControllerOutcome.noConfusion h
    | some c =>
      by_cases hc : c = notControllerCode
      · subst hc
        cases h1 : firstBad (resp 1) with
        | none =>
          rw [(hcase3 h0).1 h1]
          exact fun h => ControllerOutcome.noConfusion h
        | some c2 =>
          rw [(hcase3 h0).2 c2 h1]
          exact fun h => ControllerOutcome.noConfusion h
      · rw [hcase2 c h0 hc]
        exact fun h => ControllerOutcome.noConfusion h

/-- Witness for C1: a first CreateTopics-style response carrying
NotController and an error-free second response give exactly two sends, one
refresh, and the second response as the result. -/
theorem C1_controller_retry_witness :
    send_request_to_controller
        (fun n => if n = 0 then AdminResponse.topicErrors [("t", 41)]
                  else AdminResponse.topicErrors [("t", 0)]) =
      ⟨2, 1, ControllerOutcome.success (AdminResponse.topicErrors [("t", 0)])⟩ :=
  ((C1_controller_retry
      (fun n => if n = 0 then AdminResponse.topicErrors [("t", 41)]
                else AdminResponse.topicErrors [("t", 0)])).2.2.2.2.2.2
    (by decide)).1 (by decide)

/-- C9: evaluation of `assign` on a docstring-covered scenario — three
members with the identical subscription `{t}`, topic `t` with six
partitions in the metadata — with dict iteration order dynamic `m1`, static
`m2`, dynamic `m3`. The `groupby`-without-sort plus overwriting dict
comprehension drops `m1` from the rotation: every partition is assigned
exactly once, but `m2` and `m3` receive three partitions each while `m1`
receives none, violating the promised balance of at most one. -/
theorem C9_roundrobin_dropped_member :
    roundrobin_assign
        (fun t => if t = "t" then some [0, 1, 2, 3, 4, 5] else none)
        [("m1", ⟨["t"], none⟩), ("m2", ⟨["t"], some "s"⟩), ("m3", ⟨["t"], none⟩)] =
      some [("m2", ⟨"t", 0⟩), ("m3", ⟨"t", 1⟩), ("m2", ⟨"t", 2⟩),
        ("m3", ⟨"t", 3⟩), ("m2", ⟨"t", 4⟩), ("m3", ⟨"t", 5⟩)] ∧
    assignedCount
        [("m2", ⟨"t", 0⟩), ("m3", ⟨"t", 1⟩), ("m2", ⟨"t", 2⟩),
         ("m3", ⟨"t", 3⟩), ("m2", ⟨"t", 4⟩), ("m3", ⟨"t", 5⟩)] "m1" = 0 ∧
    assignedCount
        [("m2", ⟨"t", 0⟩), ("m3", ⟨"t", 1⟩), ("m2", ⟨"t", 2⟩),
         ("m3", ⟨"t", 3⟩), ("m2", ⟨"t", 4⟩), ("m3", ⟨"t", 5⟩)] "m2" = 3 ∧
    ¬ (assignedCount
        [("m2", ⟨"t", 0⟩), ("m3", ⟨"t", 1⟩), ("m2", ⟨"t", 2⟩),
         ("m3", ⟨"t", 3⟩), ("m2", ⟨"t", 4⟩), ("m3", ⟨"t", 5⟩)] "m2" ≤
      assignedCount
        [("m2", ⟨"t", 0⟩), ("m3", ⟨"t", 1⟩), ("m2", ⟨"t", 2⟩),
         ("m3", ⟨"t", 3⟩), ("m2", ⟨"t", 4⟩), ("m3", ⟨"t", 5⟩)] "m1" + 1) := by
  refine ⟨?_, by decide, by decide, by decide⟩
  decide

end KafkaSpec
